import Mathlib

/-!
Verification development for the `ifascada` edge-agent data plane.

The Rust sources are shallowly embedded: each Lean definition mirrors one
Rust item (same name where possible, `snake_case` kept for methods).
Rust `f64` values are modelled as exact rationals; the claims settled here
do not hinge on binary floating-point rounding.  Wall-clock timestamps
(`chrono::Utc::now()`) are threaded explicitly as integer parameters
(milliseconds) wherever the source reads the clock.
-/

namespace Scada

/-- Model of `serde_json::Value`.  Objects are association lists keyed by
field name (serde maps have unique keys); numbers are exact rationals. -/
inductive Json : Type
  | null : Json
  | bool (b : Bool) : Json
  | num (q : ℚ) : Json
  | str (s : String) : Json
  | arr (elems : List Json) : Json
  | obj (fields : List (String × Json)) : Json

/-- Model of `serde_json::Value::get(key)` on objects (`None` elsewhere). -/
def Json.get : Json → String → Option Json
  | .obj fields, k => fields.lookup k
  | _, _ => none

/-- Model of `serde_json::Value::as_f64` (numbers are already rational here). -/
def Json.as_f64 : Json → Option ℚ
  | .num q => some q
  | _ => none

/-- Model of `serde_json::Value::as_str`. -/
def Json.as_str : Json → Option String
  | .str s => some s
  | _ => none

/-- Model of `serde_json::Value::as_array`. -/
def Json.as_array : Json → Option (List Json)
  | .arr xs => some xs
  | _ => none

/-- Model of `domain::error::DomainError` (src/crates/domain/src/error.rs). -/
inductive DomainError : Type
  | InvalidTagId (msg : String)
  | InvalidConfiguration (msg : String)
  | TagNotFound (msg : String)
  | InvalidValue (msg : String)
  | TagDisabled
  | InvalidDriverConfig (msg : String)
  | DriverError (msg : String)
deriving DecidableEq

/-- Model of `domain::tag::TagId`: a validated string wrapper
(src/crates/domain/src/tag/tag_id.rs).  The validating factory
`TagId.new` is defined further down with the character model. -/
structure TagId where
  val : String
deriving DecidableEq

/-- Model of `TagId::as_str`. -/
def TagId.as_str (t : TagId) : String := t.val

/-- Model of `domain::tag::TagQuality` (src/crates/domain/src/tag/quality.rs). -/
inductive TagQuality : Type
  | Good
  | Bad
  | Uncertain
  | Timeout
deriving DecidableEq

/-- Model of `TagQuality::as_str`. -/
def TagQuality.as_str : TagQuality → String
  | .Good => "good"
  | .Bad => "bad"
  | .Uncertain => "uncertain"
  | .Timeout => "timeout"

/-- Model of `TagQuality::is_usable`: `matches!(self, Self::Good)`. -/
def TagQuality.is_usable : TagQuality → Bool
  | .Good => true
  | _ => false

/-- Model of `Default for TagQuality`. -/
def TagQuality.default : TagQuality := .Uncertain

/-- Model of `domain::tag::TagStatus` (src/crates/domain/src/tag/status.rs). -/
inductive TagStatus : Type
  | Online
  | Offline
  | Error
  | Unknown
deriving DecidableEq

/-- Model of `TagStatus::is_healthy`: `matches!(self, Self::Online)`. -/
def TagStatus.is_healthy : TagStatus → Bool
  | .Online => true
  | _ => false

/-- Model of `Default for TagStatus`. -/
def TagStatus.default : TagStatus := .Unknown

/-- Model of `domain::tag::TagValueType` (src/crates/domain/src/tag/value_type.rs). -/
inductive TagValueType : Type
  | Simple
  | Composite
deriving DecidableEq

/-- Model of `domain::tag::TagUpdateMode` (src/crates/domain/src/tag/update_mode.rs). -/
inductive TagUpdateMode : Type
  | OnChange (debounce_ms : ℕ) (timeout_ms : ℕ)
  | Polling (interval_ms : ℕ)
  | PollingOnChange (interval_ms : ℕ) (change_threshold : ℚ)
deriving DecidableEq

/-- Model of `TagUpdateMode::timeout_ms`: polling modes time out at 3x interval. -/
def TagUpdateMode.timeout_ms : TagUpdateMode → ℕ
  | .OnChange _ t => t
  | .Polling i => i * 3
  | .PollingOnChange i _ => i * 3

/-- Model of `domain::automation::Operator` (src/crates/domain/src/automation.rs). -/
inductive Operator : Type
  | Equal
  | LessOrEqual
  | GreaterOrEqual
  | NotEqual
  | Less
  | Greater
deriving DecidableEq

/-- Model of `domain::automation::TriggerConfig`. -/
inductive TriggerConfig : Type
  | ConsecutiveValues (target_value : ℚ) (count : ℕ) (operator : Operator)
      (within_ms : Option ℕ)

/-- Model of `domain::automation::ActionConfig`. -/
inductive ActionConfig : Type
  | PrintTicket (template : String) (service_url : Option String)
  | PublishMqtt (topic : String) (payload_template : String)
  | AccumulateData (session_id : String) (template : String)
  | PrintBatch (session_id : String) (header_template : String) (footer_template : String)

/-- Model of `domain::automation::AutomationConfig`. -/
structure AutomationConfig where
  name : String
  trigger : TriggerConfig
  action : ActionConfig

/-- Model of `domain::tag::ParserConfig` (src/crates/domain/src/tag/pipeline.rs). -/
inductive ParserConfig : Type
  | None
  | Regex (pattern : String)
  | Json (path : String)
  | Custom (name : String) (config : Option Scada.Json)
  | IndexMap (keys : List String) (scale : Option ℚ)

/-- Model of `domain::tag::ValidatorConfig`. -/
inductive ValidatorConfig : Type
  | Range (min : Option ℚ) (max : Option ℚ)
  | Contains (substring : String)
  | Custom (name : String) (config : Option Json)

/-- Model of `domain::tag::ScalingConfig`. -/
inductive ScalingConfig : Type
  | Linear (slope : ℚ) (intercept : ℚ)

/-- Model of `domain::tag::PipelineConfig`. -/
structure PipelineConfig where
  parser : Option ParserConfig := none
  scaling : Option ScalingConfig := none
  validators : List ValidatorConfig := []
  automations : List AutomationConfig := []

/-- Model of the `Tag` aggregate root (src/crates/domain/src/tag/aggregate.rs).
Timestamps are integer milliseconds; methods that read `Utc::now()` take the
current time as an explicit `now` argument. -/
structure Tag where
  id : TagId
  source_config : Json
  device_id : String
  update_mode : TagUpdateMode
  value_type : TagValueType
  value_schema : Option Json
  pipeline_config : PipelineConfig
  enabled : Bool
  metadata : Option Json
  last_value : Option Json
  last_update : Option ℤ
  status : TagStatus
  quality : TagQuality
  error_message : Option String
  created_at : ℤ
  updated_at : ℤ

/-- Model of `Tag::new` (aggregate.rs lines 34-62). -/
def Tag.new (id : TagId) (device_id : String) (source_config : Json)
    (update_mode : TagUpdateMode) (value_type : TagValueType)
    (pipeline_config : PipelineConfig) (now : ℤ) : Tag :=
  { id := id
    device_id := device_id
    source_config := source_config
    update_mode := update_mode
    value_type := value_type
    value_schema := none
    pipeline_config := pipeline_config
    enabled := true
    metadata := none
    last_value := none
    last_update := none
    status := TagStatus.default
    quality := TagQuality.default
    error_message := none
    created_at := now
    updated_at := now }

/-- Model of `Tag::update_value` (aggregate.rs lines 126-138): the status is
derived from the quality argument (`is_usable` -> Online, `Timeout` -> Offline,
otherwise Error). -/
def Tag.update_value (t : Tag) (value : Json) (quality : TagQuality) (now : ℤ) : Tag :=
  { t with
    last_value := some value
    last_update := some now
    quality := quality
    status :=
      if quality.is_usable then TagStatus.Online
      else if quality = TagQuality.Timeout then TagStatus.Offline
      else TagStatus.Error
    updated_at := now }

/-- Model of `Tag::mark_offline` (aggregate.rs lines 141-145). -/
def Tag.mark_offline (t : Tag) (now : ℤ) : Tag :=
  { t with status := TagStatus.Offline, quality := TagQuality.Timeout, updated_at := now }

/-- Model of `Tag::mark_error` (aggregate.rs lines 148-153). -/
def Tag.mark_error (t : Tag) (message : String) (now : ℤ) : Tag :=
  { t with
    status := TagStatus.Error
    quality := TagQuality.Bad
    error_message := some message
    updated_at := now }

/-- Model of `Tag::enable`. -/
def Tag.enable (t : Tag) (now : ℤ) : Tag :=
  { t with enabled := true, updated_at := now }

/-- Model of `Tag::disable`. -/
def Tag.disable (t : Tag) (now : ℤ) : Tag :=
  { t with enabled := false, updated_at := now }

/-- Model of `Tag::reset_timeout` (aggregate.rs lines 168-171). -/
def Tag.reset_timeout (t : Tag) (now : ℤ) : Tag :=
  { t with last_update := some now, updated_at := now }

/-- One mutating operation on a `Tag`, as enumerated by claim C3.  The `now`
timestamp each operation would read from the clock is carried in the operation. -/
inductive TagOp : Type
  | update_value (value : Json) (quality : TagQuality) (now : ℤ)
  | mark_offline (now : ℤ)
  | mark_error (message : String) (now : ℤ)
  | enable (now : ℤ)
  | disable (now : ℤ)
  | reset_timeout (now : ℤ)

/-- Apply one mutating operation to a tag. -/
def Tag.applyOp (t : Tag) : TagOp → Tag
  | .update_value v q now => t.update_value v q now
  | .mark_offline now => t.mark_offline now
  | .mark_error m now => t.mark_error m now
  | .enable now => t.enable now
  | .disable now => t.disable now
  | .reset_timeout now => t.reset_timeout now

/-- Apply a sequence of mutating operations, left to right. -/
def Tag.applyOps (t : Tag) (ops : List TagOp) : Tag :=
  ops.foldl Tag.applyOp t

/-- The status/quality invariant stated by claim C3 (spec section 3):
Online implies Good or Uncertain; Offline implies Timeout; Error implies
Bad with an error message present. -/
def Tag.specInvariant (t : Tag) : Prop :=
  (t.status = TagStatus.Online → t.quality = TagQuality.Good ∨ t.quality = TagQuality.Uncertain) ∧
  (t.status = TagStatus.Offline → t.quality = TagQuality.Timeout) ∧
  (t.status = TagStatus.Error → t.quality = TagQuality.Bad ∧ t.error_message ≠ none)

instance (t : Tag) : Decidable t.specInvariant := by
  unfold Tag.specInvariant; infer_instance

/-- The invariant the code actually maintains: Online implies Good (hence in
particular Good or Uncertain); Offline implies Timeout; Error implies Bad or
Uncertain (with no guarantee about `error_message`). -/
def Tag.codeInvariant (t : Tag) : Prop :=
  (t.status = TagStatus.Online → t.quality = TagQuality.Good ∨ t.quality = TagQuality.Uncertain) ∧
  (t.status = TagStatus.Offline → t.quality = TagQuality.Timeout) ∧
  (t.status = TagStatus.Error → t.quality = TagQuality.Bad ∨ t.quality = TagQuality.Uncertain)

/-- A sample tag used by concrete instances: `Tag::new` with trivial config. -/
def sampleTag : Tag :=
  Tag.new ⟨"TEST_TAG"⟩ "device-1" (Json.obj [("port", Json.str "COM3")])
    (TagUpdateMode.OnChange 100 30000) TagValueType.Simple {} 0

/-- Claim C3, counterexample: starting from `Tag::new`, the single mutating
operation `update_value(v, Uncertain)` yields `status = Error` with
`quality = Uncertain` (not Bad) and `error_message = None`, so the claimed
invariant `status=Error implies quality=Bad and error_message present` fails. -/
theorem C3_counterexample :
    (sampleTag.applyOps [TagOp.update_value (Json.num 5) TagQuality.Uncertain 1]).status
        = TagStatus.Error ∧
    (sampleTag.applyOps [TagOp.update_value (Json.num 5) TagQuality.Uncertain 1]).quality
        = TagQuality.Uncertain ∧
    (sampleTag.applyOps [TagOp.update_value (Json.num 5) TagQuality.Uncertain 1]).error_message
        = none ∧
    ¬ (sampleTag.applyOps [TagOp.update_value (Json.num 5) TagQuality.Uncertain 1]).specInvariant := by
  refine ⟨rfl, rfl, rfl, ?_⟩
  decide

/-- Step lemma: every mutating operation preserves the code invariant. -/
theorem Tag.codeInvariant_applyOp {t : Tag} (h : t.codeInvariant) (op : TagOp) :
    (t.applyOp op).codeInvariant := by
  obtain ⟨h1, h2, h3⟩ := h
  cases op with
  | update_value v q now =>
    cases q <;>
      simp [Tag.applyOp, Tag.update_value, Tag.codeInvariant, TagQuality.is_usable]
  | mark_offline now =>
    simp [Tag.applyOp, Tag.mark_offline, Tag.codeInvariant]
  | mark_error m now =>
    simp [Tag.applyOp, Tag.mark_error, Tag.codeInvariant]
  | enable now =>
    exact ⟨h1, h2, h3⟩
  | disable now =>
    exact ⟨h1, h2, h3⟩
  | reset_timeout now =>
    exact ⟨h1, h2, h3⟩

/-- The code invariant is preserved by arbitrary operation sequences. -/
theorem Tag.codeInvariant_applyOps {t : Tag} (h : t.codeInvariant) (ops : List TagOp) :
    (t.applyOps ops).codeInvariant := by
  induction ops generalizing t with
  | nil => exact h
  | cons op rest ih => exact ih (Tag.codeInvariant_applyOp h op)

/-- Claim C3, amended: after every sequence of mutating operations starting
from `Tag::new`, the invariant that actually holds is: Online implies quality
in {Good, Uncertain}; Offline implies quality = Timeout; Error implies quality
in {Bad, Uncertain}.  (The source can reach Error with quality Uncertain via
`update_value`, and reaches Error with no error message set.) -/
theorem C3_amended (id : TagId) (device_id : String) (source_config : Json)
    (update_mode : TagUpdateMode) (value_type : TagValueType)
    (pipeline_config : PipelineConfig) (now : ℤ) (ops : List TagOp) :
    ((Tag.new id device_id source_config update_mode value_type pipeline_config now).applyOps
        ops).codeInvariant := by
  have base :
      (Tag.new id device_id source_config update_mode value_type pipeline_config now).codeInvariant := by
    refine ⟨?_, ?_, ?_⟩ <;> intro h <;> simp [Tag.new, TagStatus.default] at h
  exact Tag.codeInvariant_applyOps base ops

/-! ## Automation engine (src/crates/application/src/automation/engine.rs) -/

/-- Model of `f64::EPSILON` (2^-52), used by the engine for Equal/NotEqual. -/
def f64_EPSILON : ℚ := 1 / 2 ^ 52

/-- Model of `TriggerState` (engine.rs lines 13-17); the unused
`_last_match` field is omitted since nothing reads it. -/
structure TriggerState where
  consecutive_matches : ℕ
deriving DecidableEq

/-- The primary-field key the engine reads from the cached value schema
(engine.rs lines 130-134): `schema.get("primary").as_str()`, default "value". -/
def primaryKeyOf (value_schema : Option Json) : String :=
  (((value_schema.map (fun s => s.get "primary")).join).bind Json.as_str).getD "value"

/-- Model of step 1 of `AutomationEngine::evaluate_trigger` (engine.rs lines
124-142): extract the numeric value, substituting 0.0 whenever the value is
not numeric under the tag's value type. -/
def extractNumericValue (value_type : TagValueType) (value_schema : Option Json)
    (value : Json) : ℚ :=
  match value_type, value with
  | TagValueType.Simple, Json.num n => n
  | TagValueType.Composite, Json.obj fields =>
      ((((Json.obj fields).get (primaryKeyOf value_schema)).bind Json.as_f64)).getD 0
  | _, _ => 0

/-- Absolute value on the rational model of f64 (`f64::abs`), written as an
explicit conditional so that `decide` can evaluate it. -/
def ratAbs (q : ℚ) : ℚ := if q < 0 then -q else q

/-- Model of step 2 of `evaluate_trigger` (engine.rs lines 145-152): the
operator comparison, with EPSILON tolerance on Equal/NotEqual. -/
def matchCondition (operator : Operator) (target_value num_val : ℚ) : Bool :=
  match operator with
  | Operator.Equal => decide (ratAbs (num_val - target_value) < f64_EPSILON)
  | Operator.NotEqual => decide (f64_EPSILON ≤ ratAbs (num_val - target_value))
  | Operator.LessOrEqual => decide (num_val ≤ target_value)
  | Operator.GreaterOrEqual => decide (target_value ≤ num_val)
  | Operator.Greater => decide (target_value < num_val)
  | Operator.Less => decide (num_val < target_value)

/-- Model of `AutomationEngine::evaluate_trigger` (engine.rs lines 109-189):
on a match the counter is incremented, otherwise reset to 0; if the counter
then reaches `count` the trigger fires and the counter is reset to 0.
Returns (fired, new state). -/
def evaluate_trigger (state : TriggerState) (trigger : TriggerConfig) (value : Json)
    (value_type : TagValueType) (value_schema : Option Json) : Bool × TriggerState :=
  match trigger with
  | TriggerConfig.ConsecutiveValues target_value count operator _ =>
      let num_val := extractNumericValue value_type value_schema value
      let mc := matchCondition operator target_value num_val
      let c := if mc then state.consecutive_matches + 1 else 0
      if count ≤ c then (true, ⟨0⟩) else (false, ⟨c⟩)

/-- Run `evaluate_trigger` over a sequence of `TagValueUpdated` values for one
automation binding, threading the trigger state as `handle_event` does; the
trace records (fired, state after the event) per event. -/
def engineTrace (trigger : TriggerConfig) (value_type : TagValueType)
    (value_schema : Option Json) : TriggerState → List Json → List (Bool × TriggerState)
  | _, [] => []
  | st, v :: vs =>
      let r := evaluate_trigger st trigger v value_type value_schema
      r :: engineTrace trigger value_type value_schema r.2 vs

/-- Boolean-level engine step: the counter update and fire decision of
`evaluate_trigger`, abstracted over the already-computed match bit. -/
def stepB (count c : ℕ) (b : Bool) : Bool × ℕ :=
  let c2 := if b then c + 1 else 0
  if count ≤ c2 then (true, 0) else (false, c2)

/-- Boolean-level engine trace. -/
def traceB (count : ℕ) : ℕ → List Bool → List (Bool × ℕ)
  | _, [] => []
  | c, b :: bs =>
      let r := stepB count c b
      r :: traceB count r.2 bs

/-- Reference behaviour in terms of runs: `r` is the number of consecutive
matching events in the current unbroken run.  An event fires exactly when it
matches and its run position is a multiple of `count`, and the stored counter
after each event is the run position modulo `count` (hence 0 after a
non-match and 0 after a fire). -/
def consecutiveRunSpec (count : ℕ) : ℕ → List Bool → List (Bool × ℕ)
  | _, [] => []
  | r, b :: bs =>
      let r2 := if b then r + 1 else 0
      (b && decide (r2 % count = 0), r2 % count) :: consecutiveRunSpec count r2 bs

/-- One engine step is the boolean-level step applied to the match bit. -/
theorem evaluate_trigger_eq_stepB (target : ℚ) (count : ℕ) (op : Operator)
    (w : Option ℕ) (vt : TagValueType) (schema : Option Json) (v : Json)
    (st : TriggerState) :
    evaluate_trigger st (TriggerConfig.ConsecutiveValues target count op w) v vt schema
      = ((stepB count st.consecutive_matches
            (matchCondition op target (extractNumericValue vt schema v))).1,
         ⟨(stepB count st.consecutive_matches
            (matchCondition op target (extractNumericValue vt schema v))).2⟩) := by
  dsimp only [evaluate_trigger, stepB]
  split <;> split <;> rfl

/-- The engine trace is the boolean-level trace of the per-event match bits. -/
theorem engineTrace_eq_traceB (target : ℚ) (count : ℕ) (op : Operator)
    (w : Option ℕ) (vt : TagValueType) (schema : Option Json) (c : ℕ) (vs : List Json) :
    engineTrace (TriggerConfig.ConsecutiveValues target count op w) vt schema ⟨c⟩ vs
      = (traceB count c
          (vs.map (fun v => matchCondition op target (extractNumericValue vt schema v)))).map
            (fun p => (p.1, ⟨p.2⟩)) := by
  induction vs generalizing c with
  | nil => rfl
  | cons v vs ih =>
      simp only [engineTrace, traceB, List.map_cons, evaluate_trigger_eq_stepB, ih]

/-- The boolean-level trace realizes the run-based description whenever the
incoming counter equals the current run position modulo `count`. -/
theorem traceB_eq_runSpec {count : ℕ} (hk : 1 ≤ count) (bs : List Bool) (r : ℕ) :
    traceB count (r % count) bs = consecutiveRunSpec count r bs := by
  induction bs generalizing r with
  | nil => rfl
  | cons b bs ih =>
      cases b with
      | false =>
          have h0 : ¬ count ≤ 0 := by omega
          simpa [traceB, stepB, consecutiveRunSpec, h0, Nat.zero_mod] using ih 0
      | true =>
          have hlt : r % count < count := Nat.mod_lt _ (by omega)
          by_cases hfire : count ≤ r % count + 1
          · have heq : r % count + 1 = count := by omega
            have hmod : (r + 1) % count = 0 := by
              rw [← Nat.mod_add_mod, heq, Nat.mod_self]
            simpa [traceB, stepB, consecutiveRunSpec, hfire, hmod] using ih (r + 1)
          · have hlt2 : r % count + 1 < count := by omega
            have hmod : (r + 1) % count = r % count + 1 := by
              rw [← Nat.mod_add_mod, Nat.mod_eq_of_lt hlt2]
            have hne : ¬ (r + 1) % count = 0 := by
              rw [hmod]; exact Nat.succ_ne_zero _
            simpa [traceB, stepB, consecutiveRunSpec, hfire, hmod, hne] using ih (r + 1)

/-- Claim C1, counterexample: with `count = 2`, `operator = Equal`,
`target_value = 0.0`, the four-event sequence 0, 0, 0, 0 is a single maximal
run of four matching events, yet the engine fires twice (on the 2nd and 4th
events) with no break in the pattern in between — so the action does not fire
"exactly once per maximal run", and a fresh fire does not require a break. -/
theorem C1_counterexample :
    ((engineTrace (TriggerConfig.ConsecutiveValues 0 2 Operator.Equal none)
        TagValueType.Simple none ⟨0⟩
        [Json.num 0, Json.num 0, Json.num 0, Json.num 0]).map Prod.fst
      = [false, true, false, true]) ∧
    (∀ v ∈ [Json.num 0, Json.num 0, Json.num 0, Json.num 0],
        matchCondition Operator.Equal 0
          (extractNumericValue TagValueType.Simple none v) = true) := by
  have hm : matchCondition Operator.Equal 0
      (extractNumericValue TagValueType.Simple none (Json.num 0)) = true := by
    rw [show matchCondition Operator.Equal 0
          (extractNumericValue TagValueType.Simple none (Json.num 0))
        = decide (ratAbs (0 - 0) < f64_EPSILON) from rfl, decide_eq_true_eq]
    norm_num [ratAbs, f64_EPSILON]
  constructor
  · simp [engineTrace, evaluate_trigger_eq_stepB, hm, stepB]
  · intro v hv
    have hv0 : v = Json.num 0 := by simpa using hv
    rw [hv0]
    exact hm

/-- Claim C1, amended: for `count = k >= 1`, the engine fires exactly on every
k-th matching event of each unbroken run of matching events (run positions
k, 2k, 3k, ... — so a maximal run of m matches fires floor(m/k) times, and the
(k+1)-th matching event of a run does not fire when k >= 2), and the stored
counter after each event is the run position modulo k: it is reset to 0 by a
non-matching event and by a successful firing. -/
theorem C1_amended (target : ℚ) (count : ℕ) (op : Operator) (w : Option ℕ)
    (vt : TagValueType) (schema : Option Json) (vs : List Json) (hk : 1 ≤ count) :
    engineTrace (TriggerConfig.ConsecutiveValues target count op w) vt schema ⟨0⟩ vs
      = (consecutiveRunSpec count 0
          (vs.map (fun v => matchCondition op target (extractNumericValue vt schema v)))).map
            (fun p => (p.1, ⟨p.2⟩)) := by
  rw [engineTrace_eq_traceB]
  have h := traceB_eq_runSpec hk
    (vs.map (fun v => matchCondition op target (extractNumericValue vt schema v))) 0
  rw [Nat.zero_mod] at h
  rw [h]

/-- Witness for C1_amended at a concrete input (k = 2, four matching events). -/
theorem C1_amended_witness :
    1 ≤ 2 ∧
    engineTrace (TriggerConfig.ConsecutiveValues 0 2 Operator.Equal none)
        TagValueType.Simple none ⟨0⟩ [Json.num 0, Json.num 0, Json.num 0, Json.num 0]
      = (consecutiveRunSpec 2 0
          ([Json.num 0, Json.num 0, Json.num 0, Json.num 0].map
            (fun v => matchCondition Operator.Equal 0
              (extractNumericValue TagValueType.Simple none v)))).map
            (fun p => (p.1, ⟨p.2⟩)) :=
  ⟨by decide,
   C1_amended 0 2 Operator.Equal none TagValueType.Simple none
     [Json.num 0, Json.num 0, Json.num 0, Json.num 0] (by decide)⟩

/-- Claim C10: when a `TagValueUpdated` value is not numeric under the tag's
value type (a Simple tag whose value is not a JSON number, or a Composite tag
whose primary field is missing or non-numeric), the engine substitutes 0.0,
so a ConsecutiveValues trigger with operator Equal and target 0.0 counts the
event as a match (incrementing the counter / firing as on any match). -/
theorem C10_non_numeric_defaults_to_zero (schema : Option Json) (v : Json)
    (fields : List (String × Json)) :
    (v.as_f64 = none → extractNumericValue TagValueType.Simple schema v = 0) ∧
    ((((Json.obj fields).get (primaryKeyOf schema)).bind Json.as_f64) = none →
        extractNumericValue TagValueType.Composite schema (Json.obj fields) = 0) ∧
    (matchCondition Operator.Equal 0 0 = true) ∧
    (∀ (st count : ℕ) (w : Option ℕ), v.as_f64 = none →
        evaluate_trigger ⟨st⟩ (TriggerConfig.ConsecutiveValues 0 count Operator.Equal w)
            v TagValueType.Simple schema
          = if count ≤ st + 1 then (true, ⟨0⟩) else (false, ⟨st + 1⟩)) := by
  have hmatch : matchCondition Operator.Equal 0 0 = true := by
    rw [show matchCondition Operator.Equal 0 0
        = decide (ratAbs (0 - 0) < f64_EPSILON) from rfl, decide_eq_true_eq]
    norm_num [ratAbs, f64_EPSILON]
  refine ⟨?_, ?_, hmatch, ?_⟩
  · intro h
    cases v <;> simp_all [Json.as_f64, extractNumericValue]
  · intro h
    simp [extractNumericValue, h]
  · intro st count w h
    have hz : extractNumericValue TagValueType.Simple schema v = 0 := by
      cases v <;> simp_all [Json.as_f64, extractNumericValue]
    rw [evaluate_trigger_eq_stepB, hz, hmatch]
    by_cases hc : count ≤ st + 1 <;> simp [stepB, hc]

/-- Witness for C10 at a concrete input: a Simple tag whose value is the
string "ST,GS" and a Composite object without the primary field. -/
theorem C10_witness :
    ((Json.str "ST,GS").as_f64 = none →
        extractNumericValue TagValueType.Simple none (Json.str "ST,GS") = 0) ∧
    ((((Json.obj [("unit", Json.str "kg")]).get (primaryKeyOf none)).bind Json.as_f64) = none →
        extractNumericValue TagValueType.Composite none (Json.obj [("unit", Json.str "kg")]) = 0) ∧
    (matchCondition Operator.Equal 0 0 = true) ∧
    (∀ (st count : ℕ) (w : Option ℕ), (Json.str "ST,GS").as_f64 = none →
        evaluate_trigger ⟨st⟩ (TriggerConfig.ConsecutiveValues 0 count Operator.Equal w)
            (Json.str "ST,GS") TagValueType.Simple none
          = if count ≤ st + 1 then (true, ⟨0⟩) else (false, ⟨st + 1⟩)) :=
  C10_non_numeric_defaults_to_zero none (Json.str "ST,GS") [("unit", Json.str "kg")]

/-! ## Batch manager (src/crates/application/src/printer/batch_manager.rs) -/

/-- Model of `PrintItem` (batch_manager.rs lines 4-9). -/
structure PrintItem where
  value : Json
  timestamp : ℤ
  metadata : Option Json

/-- Model of `BatchManager` (batch_manager.rs lines 11-16); `session_timeout`
is in milliseconds (`Duration::minutes(30)`). -/
structure BatchManager where
  current_batch : List PrintItem
  last_update : ℤ
  session_timeout : ℤ

/-- Model of `BatchManager::new`. -/
def BatchManager.new (now : ℤ) : BatchManager :=
  { current_batch := [], last_update := now, session_timeout := 30 * 60 * 1000 }

/-- The numeric reading of an item value (batch_manager.rs lines 39-45 and
48-54): a number itself, the "value" field of an object, else 0.0. -/
def batchNumVal : Json → ℚ
  | Json.num n => n
  | Json.obj fields => (((Json.obj fields).get "value").bind Json.as_f64).getD 0
  | _ => 0

/-- Model of `BatchManager::add_item` (batch_manager.rs lines 28-68):
rule 1 clears on session expiry, rule 2 clears on a negative-to-positive
reading transition, then the item is pushed and `last_update` set. -/
def BatchManager.add_item (bm : BatchManager) (value : Json) (metadata : Option Json)
    (now : ℤ) : BatchManager :=
  let bm1 :=
    if bm.session_timeout < now - bm.last_update then { bm with current_batch := [] } else bm
  let num_val := batchNumVal value
  let bm2 :=
    match bm1.current_batch.getLast? with
    | some last_item =>
        if batchNumVal last_item.value < 0 ∧ 0 < num_val then { bm1 with current_batch := [] }
        else bm1
    | none => bm1
  { bm2 with
    current_batch := bm2.current_batch ++ [⟨value, now, metadata⟩]
    last_update := now }

/-- Model of `BatchManager::take_batch` (batch_manager.rs lines 71-76). -/
def BatchManager.take_batch (bm : BatchManager) : List PrintItem × BatchManager :=
  (bm.current_batch, { bm with current_batch := [] })

/-- Step 1 of `add_item` in isolation: the time-window reset. -/
def clearIfExpired (bm : BatchManager) (now : ℤ) : BatchManager :=
  if bm.session_timeout < now - bm.last_update then { bm with current_batch := [] } else bm

/-- Step 2 of `add_item` in isolation: the negative-to-positive reset,
evaluated against the batch as left by step 1. -/
def clearIfNewCycle (bm : BatchManager) (value : Json) : BatchManager :=
  match bm.current_batch.getLast? with
  | some last_item =>
      if batchNumVal last_item.value < 0 ∧ 0 < batchNumVal value then
        { bm with current_batch := [] }
      else bm
  | none => bm

/-- Step 3 of `add_item` in isolation: unconditional push and timestamp update. -/
def pushItem (bm : BatchManager) (value : Json) (metadata : Option Json) (now : ℤ) :
    BatchManager :=
  { bm with
    current_batch := bm.current_batch ++ [⟨value, now, metadata⟩]
    last_update := now }

/-- Claim C7: `add_item` is exactly the three steps in order (expiry reset,
then negative-to-positive reset on the possibly-cleared batch, then an
unconditional push that sets `last_update := now`); consequently accumulating
a negative reading followed by a positive one (within the session window)
leaves only the positive item in the batch. -/
theorem C7_add_item_steps :
    (∀ (bm : BatchManager) (v : Json) (m : Option Json) (now : ℤ),
        bm.add_item v m now = pushItem (clearIfNewCycle (clearIfExpired bm now) v) v m now) ∧
    (∀ (bm : BatchManager) (v : Json) (m : Option Json) (now : ℤ),
        (bm.add_item v m now).last_update = now ∧
        ∃ pre, (bm.add_item v m now).current_batch = pre ++ [⟨v, now, m⟩]) ∧
    (∀ (bm : BatchManager) (v1 v2 : Json) (m1 m2 : Option Json) (n1 n2 : ℤ),
        batchNumVal v1 < 0 → 0 < batchNumVal v2 →
        n2 - n1 ≤ bm.session_timeout →
        ((bm.add_item v1 m1 n1).add_item v2 m2 n2).current_batch = [⟨v2, n2, m2⟩]) := by
  refine ⟨fun bm v m now => rfl, fun bm v m now => ⟨rfl, ⟨_, rfl⟩⟩, ?_⟩
  intro bm v1 v2 m1 m2 n1 n2 hneg hpos htime
  have hst : (bm.add_item v1 m1 n1).session_timeout = bm.session_timeout := by
    simp only [BatchManager.add_item]
    repeat' split
    all_goals rfl
  have hlu : (bm.add_item v1 m1 n1).last_update = n1 := rfl
  have hlast : (bm.add_item v1 m1 n1).current_batch.getLast?
      = some ⟨v1, n1, m1⟩ :=
    List.getLast?_concat _
  have hnotexp :
      ¬ ((bm.add_item v1 m1 n1).session_timeout
          < n2 - (bm.add_item v1 m1 n1).last_update) := by
    rw [hst, hlu]; omega
  conv_lhs => rw [BatchManager.add_item]
  rw [if_neg hnotexp]
  simp only [hlast]
  simp [hneg, hpos]

/-- Witness for C7 at a concrete input: accumulate -5 then 10 one millisecond
apart in a fresh session; the batch ends up holding only the positive item. -/
theorem C7_witness :
    batchNumVal (Json.num (-5)) < 0 ∧ 0 < batchNumVal (Json.num 10) ∧
    (2 : ℤ) - 1 ≤ (BatchManager.new 0).session_timeout ∧
    (((BatchManager.new 0).add_item (Json.num (-5)) none 1).add_item
        (Json.num 10) none 2).current_batch = [⟨Json.num 10, 2, none⟩] :=
  ⟨by norm_num [batchNumVal], by norm_num [batchNumVal],
   by norm_num [BatchManager.new],
   C7_add_item_steps.2.2 (BatchManager.new 0) (Json.num (-5)) (Json.num 10) none none 1 2
     (by norm_num [batchNumVal]) (by norm_num [batchNumVal])
     (by norm_num [BatchManager.new])⟩

/-! ## TagId validation (src/crates/domain/src/tag/tag_id.rs) -/

/-- Modelled from the Rust standard library: `char::is_alphanumeric` is true
on Unicode Alphabetic characters and characters of general category N
(number).  This model is exact on the Basic Latin and Latin-1 Supplement
blocks (code points below 0x100): ASCII digits and letters, the Latin-1
letters U+00AA, U+00B5, U+00BA, U+00C0-U+00D6, U+00D8-U+00F6, U+00F8-U+00FF,
and the Latin-1 numeric characters U+00B2, U+00B3, U+00B9, U+00BC-U+00BE.
Code points at or above 0x100 are not exercised by any theorem below and are
mapped to false. -/
def rustCharIsAlphanumeric (c : Char) : Bool :=
  let n := c.toNat
  decide ((0x30 ≤ n ∧ n ≤ 0x39) ∨ (0x41 ≤ n ∧ n ≤ 0x5A) ∨ (0x61 ≤ n ∧ n ≤ 0x7A) ∨
    n = 0xAA ∨ n = 0xB5 ∨ n = 0xBA ∨ n = 0xB2 ∨ n = 0xB3 ∨ n = 0xB9 ∨
    (0xBC ≤ n ∧ n ≤ 0xBE) ∨ (0xC0 ≤ n ∧ n ≤ 0xD6) ∨ (0xD8 ≤ n ∧ n ≤ 0xF6) ∨
    (0xF8 ≤ n ∧ n ≤ 0xFF))

/-- Model of `TagId::new` (tag_id.rs lines 15-44): reject empty input, input
longer than 100 bytes (`id.len()` is a UTF-8 byte count in Rust), and any
character that is not alphanumeric (in the Unicode sense above) or one of
underscore, hyphen, forward slash. -/
def TagId.new (id : String) : Except DomainError TagId :=
  if id.isEmpty then
    Except.error (DomainError.InvalidTagId "Tag ID cannot be empty")
  else if 100 < id.utf8ByteSize then
    Except.error (DomainError.InvalidTagId "Tag ID too long")
  else if ! id.data.all (fun c => rustCharIsAlphanumeric c || c == '_' || c == '-' || c == '/') then
    Except.error (DomainError.InvalidTagId
      "Tag ID must contain only alphanumeric, underscore, hyphen, and forward slash")
  else
    Except.ok ⟨id⟩

/-- The acceptance predicate claimed by the spec, written from the spec words
for comparison with `TagId.new`: non-empty, at most 100 characters, all drawn
from [A-Za-z0-9] plus underscore, slash, hyphen. -/
def specTagIdAccepts (id : String) : Bool :=
  !id.isEmpty && decide (id.length ≤ 100) && id.data.all fun c =>
    decide (('A' ≤ c ∧ c ≤ 'Z') ∨ ('a' ≤ c ∧ c ≤ 'z') ∨ ('0' ≤ c ∧ c ≤ '9') ∨
      c = '_' ∨ c = '/' ∨ c = '-')

/-- Claim C8, counterexample: the code accepts the one-character string
"á" (U+00E1, a Unicode-alphanumeric character, 2 UTF-8 bytes), which the
spec charset ([A-Za-z0-9] plus underscore, slash, hyphen) excludes, so construction does not succeed
exactly on the spec charset. -/
theorem C8_counterexample :
    (TagId.new "á").isOk = true ∧ specTagIdAccepts "á" = false := by
  constructor
  · decide
  · decide

/-- Claim C8, amended: construction succeeds exactly on non-empty strings of
at most 100 UTF-8 bytes whose characters are Unicode alphanumeric (not only
ASCII; modelled exactly on the Latin-1 range) or one of underscore, hyphen,
forward slash.  In particular it accepts "A" and a 100-character alphanumeric
string, rejects the empty string, a 101-character string and "A@B", and also
accepts the non-ASCII letter "á". -/
theorem C8_amended :
    (∀ s : String,
      (TagId.new s).isOk = true ↔
        (¬ s.isEmpty = true ∧ s.utf8ByteSize ≤ 100 ∧
          ∀ c ∈ s.data,
            (rustCharIsAlphanumeric c = true ∨ c = '_' ∨ c = '-' ∨ c = '/'))) ∧
    (TagId.new "A").isOk = true ∧
    (TagId.new (String.mk (List.replicate 100 'A'))).isOk = true ∧
    (TagId.new "").isOk = false ∧
    (TagId.new (String.mk (List.replicate 101 'A'))).isOk = false ∧
    (TagId.new "A@B").isOk = false ∧
    (TagId.new "á").isOk = true := by
  refine ⟨?_, by decide, by decide, by decide, by decide, by decide, by decide⟩
  intro s
  by_cases h1 : s.isEmpty
  · rw [TagId.new, if_pos h1]
    constructor
    · intro h; exact absurd h (by simp [Except.isOk, Except.toBool])
    · rintro ⟨hne, -, -⟩; exact absurd h1 hne
  · by_cases h2 : 100 < s.utf8ByteSize
    · rw [TagId.new, if_neg h1, if_pos h2]
      constructor
      · intro h; exact absurd h (by simp [Except.isOk, Except.toBool])
      · rintro ⟨-, hle, -⟩; omega
    · by_cases h3 : s.data.all
          (fun c => rustCharIsAlphanumeric c || c == '_' || c == '-' || c == '/') = true
      · rw [TagId.new, if_neg h1, if_neg h2, if_neg (by simp [h3])]
        simp only [Except.isOk]
        constructor
        · intro _
          refine ⟨h1, by omega, fun c hc => ?_⟩
          have hcc := List.all_eq_true.mp h3 c hc
          simp only [Bool.or_eq_true, beq_iff_eq] at hcc
          tauto
        · intro _; rfl
      · have h3f : s.data.all
            (fun c => rustCharIsAlphanumeric c || c == '_' || c == '-' || c == '/') = false := by
          revert h3
          cases s.data.all
            (fun c => rustCharIsAlphanumeric c || c == '_' || c == '-' || c == '/') <;> simp
        rw [TagId.new, if_neg h1, if_neg h2, if_pos (by simp [h3f])]
        constructor
        · intro h; exact absurd h (by simp [Except.isOk, Except.toBool])
        · rintro ⟨-, -, hchars⟩
          exfalso
          apply h3
          refine List.all_eq_true.mpr fun c hc => ?_
          have hd := hchars c hc
          simp only [Bool.or_eq_true, beq_iff_eq]
          tauto

/-! ## Store-and-forward publisher
(src/crates/infrastructure/src/messaging/buffered_publisher.rs and
src/crates/infrastructure/src/database/sqlite_buffer.rs) -/

/-- Model of `domain::event::ReportItem`. -/
structure ReportItem where
  value : Json
  timestamp : ℤ
  metadata : Option Json

/-- Model of `domain::event::DomainEvent` (src/crates/domain/src/event/mod.rs).
Timestamps are integer milliseconds (`timestamp_millis`). -/
inductive DomainEvent : Type
  | TagConnected (tag_id : TagId) (timestamp : ℤ)
  | TagDisconnected (tag_id : TagId) (reason : String) (timestamp : ℤ)
  | TagValueUpdated (tag_id : TagId) (value : Json) (quality : TagQuality) (timestamp : ℤ)
  | AgentHeartbeat (agent_id : String) (uptime_secs : ℕ) (active_tags : ℕ)
      (active_tag_ids : List String) (timestamp : ℤ)
  | TagExecutorError (tag_id : TagId) (error : String) (timestamp : ℤ)
  | ReportCompleted (report_id : String) (agent_id : String) (items : List ReportItem)
      (timestamp : ℤ)

/-- Serde serialization of a `ReportItem` into the report payload; the chrono
timestamp is abstracted to its integer value. -/
def reportItemToJson (it : ReportItem) : Json :=
  Json.obj [("value", it.value), ("timestamp", Json.num it.timestamp),
    ("metadata", it.metadata.getD Json.null)]

/-- Model of `BufferedMqttPublisher::create_payload` (buffered_publisher.rs
lines 92-127): only `TagValueUpdated` and `ReportCompleted` have a wire
mapping; heartbeats and all other events map to `None`.  Payload bytes are
modelled as the JSON value the source would serialize. -/
def create_payload (agent_id : String) : DomainEvent → Option (String × Json)
  | DomainEvent.TagValueUpdated tag_id value quality timestamp =>
      some ("scada/data/" ++ agent_id,
        Json.arr [Json.obj [("tag_id", Json.str tag_id.as_str), ("val", value),
          ("ts", Json.num timestamp), ("q", Json.str quality.as_str)]])
  | DomainEvent.ReportCompleted report_id _ items timestamp =>
      some ("scada/reports/" ++ agent_id,
        Json.obj [("report_id", Json.str report_id), ("timestamp", Json.num timestamp),
          ("items", Json.arr (items.map reportItemToJson))])
  | _ => none

/-- One row of the `offline_buffer` table (sqlite_buffer.rs):
`id INTEGER PRIMARY KEY, topic, payload, created_at`. -/
structure BufferRow where
  id : ℤ
  topic : String
  payload : Json
  created_at : ℤ

/-- Model of `SQLiteBuffer`: the table contents in insertion (rowid) order. -/
structure SQLiteBuffer where
  rows : List BufferRow

/-- The next auto-assigned `INTEGER PRIMARY KEY` (SQLite rowid: max + 1). -/
def SQLiteBuffer.nextId (b : SQLiteBuffer) : ℤ :=
  (b.rows.map BufferRow.id).foldr max 0 + 1

/-- Model of `SQLiteBuffer::enqueue` (sqlite_buffer.rs lines 31-38): INSERT
with `created_at = strftime(now)`. -/
def SQLiteBuffer.enqueue (b : SQLiteBuffer) (topic : String) (payload : Json)
    (now : ℤ) : SQLiteBuffer :=
  ⟨b.rows ++ [⟨b.nextId, topic, payload, now⟩]⟩

/-- Model of `SQLiteBuffer::count`. -/
def SQLiteBuffer.count (b : SQLiteBuffer) : ℕ := b.rows.length

/-- Model of `SQLiteBuffer::dequeue_batch` (sqlite_buffer.rs lines 40-53):
`SELECT ... ORDER BY created_at ASC LIMIT ?`.  The `ORDER BY` on a
non-unique column is modelled as a stable sort of the table in rowid order
(SQLite scans the table in rowid order and the sort is stable on ties). -/
def SQLiteBuffer.dequeue_batch (b : SQLiteBuffer) (limit : ℕ) : List BufferRow :=
  (List.insertionSort (fun r1 r2 => r1.created_at ≤ r2.created_at) b.rows).take limit

/-- Model of `SQLiteBuffer::delete` (sqlite_buffer.rs lines 55-61):
`DELETE WHERE id = ?`. -/
def SQLiteBuffer.delete (b : SQLiteBuffer) (id : ℤ) : SQLiteBuffer :=
  ⟨b.rows.filter (fun r => r.id != id)⟩

/-- The per-row loop of the flusher (buffered_publisher.rs lines 54-79):
publish each dequeued row in order; on success `delete(id)` and continue, on
the first failure break (delete nothing further, skip nothing).  `publishOk`
gives the outcome `client.publish_bytes` would return for each row.  Returns
(rows published in order, buffer after deletions). -/
def flushRows (publishOk : BufferRow → Bool) :
    List BufferRow → SQLiteBuffer → List BufferRow × SQLiteBuffer
  | [], b => ([], b)
  | row :: rest, b =>
      if publishOk row then
        let r := flushRows publishOk rest (b.delete row.id)
        (row :: r.1, r.2)
      else ([], b)

/-- One 5-second cadence of the flusher loop (buffered_publisher.rs lines
39-88): skip when not connected; when the buffer is non-empty, dequeue a
batch of 50 and run the per-row loop. -/
def flusherCycle (connected : Bool) (publishOk : BufferRow → Bool)
    (b : SQLiteBuffer) : List BufferRow × SQLiteBuffer :=
  if ! connected then ([], b)
  else if 0 < b.count then flushRows publishOk (b.dequeue_batch 50) b
  else ([], b)

/-- The buffer as maintained by the single-writer enqueue path: rowids
strictly increase along the table and `created_at` stamps (wall-clock
seconds at insertion) never decrease. -/
def bufferWellFormed (b : SQLiteBuffer) : Prop :=
  b.rows.Pairwise (fun r1 r2 => r1.id < r2.id ∧ r1.created_at ≤ r2.created_at)

/-- Model of `BufferedMqttPublisher` state: the durable buffer plus the
messages handed to the broker (QoS 1 wire-mapped events, QoS 0 heartbeats). -/
structure PublisherState where
  buffer : SQLiteBuffer
  delivered : List (String × Json)
  qos0_sent : List (String × Json)

/-- Serialization of the heartbeat payload (buffered_publisher.rs lines
165-172); the `config_version` the source reads is not a field of the domain
event and is abstracted as an extra argument. -/
def heartbeatPayload (config_version : String) (uptime_secs active_tags : ℕ)
    (active_tag_ids : List String) (timestamp : ℤ) : Json :=
  Json.obj [("uptime", Json.num uptime_secs), ("version", Json.str config_version),
    ("tags", Json.num active_tags),
    ("tag_ids", Json.arr (active_tag_ids.map Json.str)),
    ("ts", Json.num timestamp)]

/-- Model of `BufferedMqttPublisher::publish` (buffered_publisher.rs lines
130-186).  `connected` is what `client.is_connected()` reports and
`publishOk` whether the immediate `publish_bytes` would succeed; heartbeat
sends are best-effort and their failure is ignored.  Returns the `Result`
handed to the caller and the new state. -/
def BufferedMqttPublisher.publish (agent_id config_version : String)
    (connected publishOk : Bool) (st : PublisherState) (event : DomainEvent)
    (now : ℤ) : Except String Unit × PublisherState :=
  match create_payload agent_id event with
  | some (topic, payload) =>
      if ! connected then
        (Except.ok (), { st with buffer := st.buffer.enqueue topic payload now })
      else if ! publishOk then
        (Except.ok (), { st with buffer := st.buffer.enqueue topic payload now })
      else
        (Except.ok (), { st with delivered := st.delivered ++ [(topic, payload)] })
  | none =>
      match event with
      | DomainEvent.AgentHeartbeat hb_agent_id uptime_secs active_tags active_tag_ids ts =>
          (Except.ok (), { st with qos0_sent := st.qos0_sent ++
            [("scada/health/" ++ hb_agent_id,
              heartbeatPayload config_version uptime_secs active_tags active_tag_ids ts)] })
      | _ => (Except.ok (), st)

/-- The rows the per-row loop publishes are the longest all-successful prefix
of the dequeued batch (processing stops at the first failure). -/
theorem flushRows_fst (f : BufferRow → Bool) (rows : List BufferRow)
    (b : SQLiteBuffer) : (flushRows f rows b).1 = rows.takeWhile f := by
  induction rows generalizing b with
  | nil => rfl
  | cons row rest ih =>
      by_cases h : f row = true
      · simp [flushRows, h, List.takeWhile_cons, ih]
      · simp [flushRows, h, List.takeWhile_cons]

/-- The per-row loop deletes exactly the rows it published, nothing else. -/
theorem flushRows_snd (f : BufferRow → Bool) (rows : List BufferRow)
    (b : SQLiteBuffer) :
    (flushRows f rows b).2.rows
      = b.rows.filter (fun x => ! (rows.takeWhile f).any (fun r => x.id == r.id)) := by
  induction rows generalizing b with
  | nil => simp [flushRows]
  | cons row rest ih =>
      by_cases h : f row = true
      · have hstep : (flushRows f (row :: rest) b).2
            = (flushRows f rest (b.delete row.id)).2 := by
          simp [flushRows, h]
        rw [hstep, ih]
        show ((b.rows.filter _).filter _) = _
        rw [List.filter_filter]
        apply List.filter_congr
        intro x hx
        simp only [List.takeWhile_cons, h, if_true, List.any_cons, Bool.not_or, bne]
        cases x.id == row.id <;>
          cases (rest.takeWhile f).any (fun r => x.id == r.id) <;> rfl
      · simp [flushRows, h, List.takeWhile_cons]

/-- Removing, by id, an initial segment of a table whose ids strictly
increase leaves exactly the remaining suffix. -/
theorem filter_not_mem_prefix (l1 : List BufferRow) :
    ∀ l2 : List BufferRow,
      (l1 ++ l2).Pairwise (fun a b => a.id < b.id) →
      (l1 ++ l2).filter (fun x => ! l1.any (fun r => x.id == r.id)) = l2 := by
  induction l1 with
  | nil => intro l2 h; simp
  | cons a l1 ih =>
      intro l2 h
      rw [List.cons_append, List.pairwise_cons] at h
      obtain ⟨hhead, htail⟩ := h
      have ha : (! (a :: l1).any (fun r => a.id == r.id)) = false := by
        simp [List.any_cons]
      rw [List.cons_append, List.filter_cons_of_neg (by simp [ha])]
      have hcongr : (l1 ++ l2).filter (fun x => ! (a :: l1).any (fun r => x.id == r.id))
          = (l1 ++ l2).filter (fun x => ! l1.any (fun r => x.id == r.id)) := by
        apply List.filter_congr
        intro x hx
        have hne : x.id ≠ a.id := (ne_of_lt (hhead x hx)).symm
        have hbeq : (x.id == a.id) = false := beq_eq_false_iff_ne.mpr hne
        simp [List.any_cons, hbeq]
      rw [hcongr, ih l2 htail]

/-- Claim C2: with the broker connected, one flusher cadence (i) dequeues the
first 50 rows of the buffer in enqueue (id) order, (ii) publishes the longest
all-successful prefix of that batch, in order — the first failure stops
processing, deleting and skipping nothing further, (iii) deletes exactly the
published prefix, so the remaining buffer is the original suffix (FIFO order
preserved, never reordered on retry), and (iv) every deleted row was
published.  When the client is not connected nothing is published or
deleted. -/
theorem C2_store_and_forward (b : SQLiteBuffer) (publishOk : BufferRow → Bool)
    (hwf : bufferWellFormed b) :
    b.dequeue_batch 50 = b.rows.take 50 ∧
    (flusherCycle true publishOk b).1 = (b.rows.take 50).takeWhile publishOk ∧
    (flusherCycle true publishOk b).2.rows
      = b.rows.drop ((b.rows.take 50).takeWhile publishOk).length ∧
    (∀ r ∈ (flusherCycle true publishOk b).1, publishOk r = true) ∧
    flusherCycle false publishOk b = ([], b) := by
  have hdq : b.dequeue_batch 50 = b.rows.take 50 := by
    unfold SQLiteBuffer.dequeue_batch
    rw [List.Sorted.insertionSort_eq (hwf.imp (fun h => h.2))]
  by_cases hemp : b.rows = []
  · have hcyc : flusherCycle true publishOk b = ([], b) := by
      unfold flusherCycle SQLiteBuffer.count
      rw [hemp]
      simp
    refine ⟨hdq, ?_, ?_, ?_, rfl⟩ <;> simp [hcyc, hemp]
  · have hpos : 0 < b.count := List.length_pos.mpr hemp
    have hcyc : flusherCycle true publishOk b
        = flushRows publishOk (b.dequeue_batch 50) b := by
      unfold flusherCycle
      simp [hpos]
    have hfst : (flusherCycle true publishOk b).1
        = (b.rows.take 50).takeWhile publishOk := by
      rw [hcyc, hdq, flushRows_fst]
    have hsplit : b.rows
        = (b.rows.take 50).takeWhile publishOk
          ++ ((b.rows.take 50).dropWhile publishOk ++ b.rows.drop 50) := by
      conv_lhs => rw [← List.take_append_drop 50 b.rows,
        ← List.takeWhile_append_dropWhile (p := publishOk) (l := b.rows.take 50)]
      rw [List.append_assoc]
    have hsnd : (flusherCycle true publishOk b).2.rows
        = b.rows.drop ((b.rows.take 50).takeWhile publishOk).length := by
      rw [hcyc, hdq, flushRows_snd]
      generalize hP : (b.rows.take 50).takeWhile publishOk = P at hsplit ⊢
      rw [hsplit, List.drop_left]
      apply filter_not_mem_prefix
      rw [← hsplit]
      exact hwf.imp (fun h => h.1)
    refine ⟨hdq, hfst, hsnd, ?_, rfl⟩
    intro r hr
    rw [hfst] at hr
    exact List.mem_takeWhile_imp hr

/-- Witness for C2 at a concrete input: a three-row buffer where publishing
the second row fails; the cadence publishes only row 1, deletes only row 1,
and leaves rows 2 and 3 in order. -/
theorem C2_store_and_forward_witness :
    bufferWellFormed ⟨[⟨1, "t", Json.null, 10⟩, ⟨2, "t", Json.null, 10⟩,
        ⟨3, "t", Json.null, 11⟩]⟩ ∧
    (SQLiteBuffer.dequeue_batch ⟨[⟨1, "t", Json.null, 10⟩, ⟨2, "t", Json.null, 10⟩,
        ⟨3, "t", Json.null, 11⟩]⟩ 50
      = ([⟨1, "t", Json.null, 10⟩, ⟨2, "t", Json.null, 10⟩,
          ⟨3, "t", Json.null, 11⟩] : List BufferRow).take 50) ∧
    ((flusherCycle true (fun r => r.id != 2)
        ⟨[⟨1, "t", Json.null, 10⟩, ⟨2, "t", Json.null, 10⟩, ⟨3, "t", Json.null, 11⟩]⟩).1
      = (([⟨1, "t", Json.null, 10⟩, ⟨2, "t", Json.null, 10⟩,
          ⟨3, "t", Json.null, 11⟩] : List BufferRow).take 50).takeWhile (fun r => r.id != 2)) ∧
    ((flusherCycle true (fun r => r.id != 2)
        ⟨[⟨1, "t", Json.null, 10⟩, ⟨2, "t", Json.null, 10⟩, ⟨3, "t", Json.null, 11⟩]⟩).2.rows
      = ([⟨1, "t", Json.null, 10⟩, ⟨2, "t", Json.null, 10⟩,
          ⟨3, "t", Json.null, 11⟩] : List BufferRow).drop
            ((([⟨1, "t", Json.null, 10⟩, ⟨2, "t", Json.null, 10⟩,
              ⟨3, "t", Json.null, 11⟩] : List BufferRow).take 50).takeWhile
                (fun r => r.id != 2)).length) := by
  have h := C2_store_and_forward
    ⟨[⟨1, "t", Json.null, 10⟩, ⟨2, "t", Json.null, 10⟩, ⟨3, "t", Json.null, 11⟩]⟩
    (fun r => r.id != 2)
    (by constructor <;> decide)
  exact ⟨by constructor <;> decide, h.1, h.2.1, h.2.2.1⟩

/-- Claim C5: for events with a wire mapping, `publish` never propagates a
broker failure to the caller: when the client reports not connected the event
is enqueued on the forward buffer and `Ok` is returned; when the immediate
broker publish errors the event is likewise enqueued and `Ok` is returned;
when the publish succeeds the message is delivered; in every case the result
handed to the caller is `Ok`.  (Forward-buffer storage itself is modelled as
infallible.) -/
theorem C5_publish_never_propagates (agent_id config_version : String)
    (st : PublisherState) (event : DomainEvent) (now : ℤ)
    (topic : String) (payload : Json)
    (hmap : create_payload agent_id event = some (topic, payload)) :
    (∀ publishOk : Bool,
      BufferedMqttPublisher.publish agent_id config_version false publishOk st event now
        = (Except.ok (), { st with buffer := st.buffer.enqueue topic payload now })) ∧
    (BufferedMqttPublisher.publish agent_id config_version true false st event now
        = (Except.ok (), { st with buffer := st.buffer.enqueue topic payload now })) ∧
    (BufferedMqttPublisher.publish agent_id config_version true true st event now
        = (Except.ok (), { st with delivered := st.delivered ++ [(topic, payload)] })) ∧
    (∀ connected publishOk : Bool,
      (BufferedMqttPublisher.publish agent_id config_version connected publishOk
          st event now).1 = Except.ok ()) := by
  have hpub : ∀ connected publishOk : Bool,
      BufferedMqttPublisher.publish agent_id config_version connected publishOk st event now
        = (if ! connected then
             (Except.ok (), { st with buffer := st.buffer.enqueue topic payload now })
           else if ! publishOk then
             (Except.ok (), { st with buffer := st.buffer.enqueue topic payload now })
           else
             (Except.ok (), { st with delivered := st.delivered ++ [(topic, payload)] })) := by
    intro connected publishOk
    unfold BufferedMqttPublisher.publish
    rw [hmap]
  refine ⟨fun publishOk => by rw [hpub]; rfl, by rw [hpub]; rfl, by rw [hpub]; rfl,
    fun connected publishOk => by rw [hpub]; cases connected <;> cases publishOk <;> rfl⟩

/-- Witness for C5 at a concrete input: a `TagValueUpdated` for tag "Tag2"
with a disconnected client is enqueued and the call returns Ok. -/
theorem C5_publish_witness :
    BufferedMqttPublisher.publish "agent-1" "v1" false true
        ⟨⟨[]⟩, [], []⟩ (DomainEvent.TagValueUpdated ⟨"Tag2"⟩ (Json.num 5) TagQuality.Good 0) 7
      = (Except.ok (), ⟨SQLiteBuffer.enqueue ⟨[]⟩ "scada/data/agent-1"
          (Json.arr [Json.obj [("tag_id", Json.str "Tag2"), ("val", Json.num 5),
            ("ts", Json.num 0), ("q", Json.str "good")]]) 7, [], []⟩) :=
  (C5_publish_never_propagates "agent-1" "v1" ⟨⟨[]⟩, [], []⟩
    (DomainEvent.TagValueUpdated ⟨"Tag2"⟩ (Json.num 5) TagQuality.Good 0) 7
    "scada/data/agent-1"
    (Json.arr [Json.obj [("tag_id", Json.str "Tag2"), ("val", Json.num 5),
      ("ts", Json.num 0), ("q", Json.str "good")]]) rfl).1 true

/-! ## Config manager (src/crates/edge-agent/src/config_manager.rs) -/

/-- The shared state the dedup check reads and writes:
`last_config_payload: Mutex<Vec<u8>>` (config_manager.rs line 24). -/
structure ConfigManagerState where
  last_config_payload : List ℕ

/-- Observable side effects of one `run_loop` iteration.  `FileWrite` is the
`tokio::fs::write` of the sanitized payload, `RepoWrite` any device/tag
repository save or delete, `ActorStop`/`ActorStart` the device-manager
stop_all/start_devices calls, `AutomationReload` the engine map swap, and
`Ack` the broker acknowledgement. -/
inductive ConfigEffect : Type
  | FileWrite (payload : List ℕ)
  | RepoWrite
  | ActorStop
  | ActorStart
  | AutomationReload
  | Ack
deriving DecidableEq

/-- Model of one iteration of `ConfigManager::run_loop` (config_manager.rs
lines 80-149) on a received message.  The dedup branch (lines 82-94) is
modelled exactly: on the config topic, a payload byte-identical to
`last_config_payload` is only acked.  Everything the non-dedup branch does
after updating `last_config_payload` — sanitization, file persist, hot
reload (lines 96-148) — is abstracted as the effect list `handleNew payload`;
the dedup theorem below holds for every such behaviour. -/
def run_loop_step (handleNew : List ℕ → List ConfigEffect)
    (st : ConfigManagerState) (msgTopic configTopic : String)
    (payload : List ℕ) : ConfigManagerState × List ConfigEffect :=
  if msgTopic = configTopic then
    if st.last_config_payload = payload then
      (st, [ConfigEffect.Ack])
    else
      ({ last_config_payload := payload }, handleNew payload ++ [ConfigEffect.Ack])
  else (st, [])

/-- Claim C6: a config message whose payload bytes equal the last processed
payload is a no-op apart from the ack: the state is unchanged and the
effects are exactly `[Ack]` — no file write, no repository write, no device
actor stop or restart — for every possible behaviour of the reload path. -/
theorem C6_config_dedup (handleNew : List ℕ → List ConfigEffect)
    (st : ConfigManagerState) (configTopic : String) (payload : List ℕ)
    (hdup : st.last_config_payload = payload) :
    run_loop_step handleNew st configTopic configTopic payload = (st, [ConfigEffect.Ack]) ∧
    (∀ p, ConfigEffect.FileWrite p ∉ (run_loop_step handleNew st configTopic configTopic payload).2) ∧
    ConfigEffect.RepoWrite ∉ (run_loop_step handleNew st configTopic configTopic payload).2 ∧
    ConfigEffect.ActorStop ∉ (run_loop_step handleNew st configTopic configTopic payload).2 ∧
    ConfigEffect.ActorStart ∉ (run_loop_step handleNew st configTopic configTopic payload).2 := by
  have hstep : run_loop_step handleNew st configTopic configTopic payload
      = (st, [ConfigEffect.Ack]) := by
    unfold run_loop_step
    rw [if_pos rfl, if_pos hdup]
  refine ⟨hstep, ?_, ?_, ?_, ?_⟩ <;> rw [hstep] <;> simp

/-- Witness for C6 at a concrete input, with a reload path that would
perform every effect if it ran. -/
theorem C6_config_dedup_witness :
    (ConfigManagerState.mk [1, 2, 3]).last_config_payload = [1, 2, 3] ∧
    run_loop_step
        (fun p => [ConfigEffect.FileWrite p, ConfigEffect.RepoWrite, ConfigEffect.ActorStop,
          ConfigEffect.ActorStart, ConfigEffect.AutomationReload])
        (ConfigManagerState.mk [1, 2, 3]) "scada/config/agent-1" "scada/config/agent-1" [1, 2, 3]
      = (ConfigManagerState.mk [1, 2, 3], [ConfigEffect.Ack]) :=
  ⟨rfl,
   (C6_config_dedup
     (fun p => [ConfigEffect.FileWrite p, ConfigEffect.RepoWrite, ConfigEffect.ActorStop,
       ConfigEffect.ActorStart, ConfigEffect.AutomationReload])
     (ConfigManagerState.mk [1, 2, 3]) "scada/config/agent-1" [1, 2, 3] rfl).1⟩

/-! ## Device actor (src/crates/application/src/device/device_actor.rs) -/

/-- Model of `TagPipelineExecutor` (device_actor.rs lines 27-32).  The boxed
`ValueParser`/`ValueValidator` trait objects are modelled as functions. -/
structure TagPipelineExecutor where
  tag_id : String
  parser : Option (String → Except String Json)
  validators : List (Json → Except String Unit)
  scaling : Option ScalingConfig

/-- Step 1 of the per-tag Ok path (device_actor.rs lines 134-142): unbox
single-element arrays. -/
def unboxSingle (val : Json) : Json :=
  match val.as_array with
  | some [x] => x
  | _ => val

/-- Steps 2.1-2.3 of the per-tag Ok path (device_actor.rs lines 148-183):
parse (stringifying non-strings through `render`, the model of
`serde_json::Value::to_string`), validate all, then linear scaling on
numbers; returns the final value when `should_update` survives, `none`
otherwise. -/
def runPipeline (render : Json → String) (pipe : Option TagPipelineExecutor)
    (processed_val : Json) : Option Json :=
  match pipe with
  | none => some processed_val
  | some pipe =>
      let afterParse : Option Json :=
        match pipe.parser with
        | some parser =>
            let raw_str := match processed_val with
              | Json.str s => s
              | v => render v
            match parser raw_str with
            | Except.ok v => some v
            | Except.error _ => none
        | none => some processed_val
      match afterParse with
      | none => none
      | some v1 =>
          if pipe.validators.all (fun vd => (vd v1).isOk) then
            match pipe.scaling with
            | some (ScalingConfig.Linear slope intercept) =>
                match v1.as_f64 with
                | some num => some (Json.num (num * slope + intercept))
                | none => some v1
            | none => some v1
          else none

/-- Replace the first tag with the given id (the `iter_mut().find()` target). -/
def updateFirstTag (tags : List Tag) (tag_id : TagId) (f : Tag → Tag) : List Tag :=
  match tags with
  | [] => []
  | t :: rest =>
      if t.id = tag_id then f t :: rest
      else t :: updateFirstTag rest tag_id f

/-- Processing of one `(tag_id, result)` entry of a successful poll batch
(device_actor.rs lines 128-197): an unknown tag is skipped; an `Err` result
is only logged (lines 193-195) — no tag state change, no event; an `Ok`
result runs the pipeline and on success updates the tag with quality Good
and emits a `TagValueUpdated` event. -/
def processEntry (render : Json → String) (pipelines : List TagPipelineExecutor)
    (tags : List Tag) (entry : TagId × Except String Json) (now : ℤ) :
    List Tag × List DomainEvent :=
  match tags.find? (fun t => t.id = entry.1) with
  | none => (tags, [])
  | some tag =>
      match entry.2 with
      | Except.error _ => (tags, [])
      | Except.ok val =>
          let processed_val := unboxSingle val
          let pipe := pipelines.find? (fun p => p.tag_id = tag.id.as_str)
          match runPipeline render pipe processed_val with
          | none => (tags, [])
          | some final_val =>
              (updateFirstTag tags entry.1
                 (fun t => t.update_value final_val TagQuality.Good now),
               [DomainEvent.TagValueUpdated entry.1 final_val TagQuality.Good now])

/-- The `for (tag_id, value_res) in results` loop over one poll batch. -/
def processBatch (render : Json → String) (pipelines : List TagPipelineExecutor)
    (tags : List Tag) (results : List (TagId × Except String Json)) (now : ℤ) :
    List Tag × List DomainEvent :=
  match results with
  | [] => (tags, [])
  | entry :: rest =>
      let r := processEntry render pipelines tags entry now
      let r2 := processBatch render pipelines r.1 rest now
      (r2.1, r.2 ++ r2.2)

/-- An `Err` entry leaves the tag list unchanged and emits nothing. -/
theorem processEntry_error (render : Json → String)
    (pipelines : List TagPipelineExecutor) (tags : List Tag) (tag_id : TagId)
    (e : String) (now : ℤ) :
    processEntry render pipelines tags (tag_id, Except.error e) now = (tags, []) := by
  unfold processEntry
  cases tags.find? (fun t => t.id = tag_id) <;> rfl

/-- Claim C4, counterexample: a batch whose single entry is a per-tag `Err`
for the (Unknown-status) sample tag leaves the tag exactly as it was —
status stays Unknown, not Error — and publishes no event at all, contrary to
the claimed `(status=Error, quality=Bad)` update and null+Bad
`TagValueUpdated` publication. -/
theorem C4_counterexample :
    processBatch (fun _ => "") [] [sampleTag]
        [(⟨"TEST_TAG"⟩, Except.error "read failed")] 1
      = ([sampleTag], []) ∧
    sampleTag.status = TagStatus.Unknown := by
  constructor
  · show (let r := processEntry _ _ _ _ 1
          let r2 := processBatch _ _ r.1 [] 1
          (r2.1, r.2 ++ r2.2)) = ([sampleTag], [])
    rw [processEntry_error]
    rfl
  · rfl

/-- Claim C4, amended: for every entry of a successful poll batch whose
per-tag result is `Err`, the actor only logs a warning and continues with
the remaining tags: the tag's status and quality are untouched and no event
is published — processing a batch containing the `Err` entry equals
processing the batch with that entry removed. -/
theorem C4_amended (render : Json → String) (pipelines : List TagPipelineExecutor)
    (tags : List Tag) (pre post : List (TagId × Except String Json))
    (tag_id : TagId) (e : String) (now : ℤ) :
    processBatch render pipelines tags (pre ++ (tag_id, Except.error e) :: post) now
      = processBatch render pipelines tags (pre ++ post) now := by
  induction pre generalizing tags with
  | nil =>
      show (let r := processEntry render pipelines tags (tag_id, Except.error e) now
            let r2 := processBatch render pipelines r.1 post now
            (r2.1, r.2 ++ r2.2)) = _
      rw [processEntry_error]
      simp
  | cons a pre ih =>
      show (let r := processEntry render pipelines tags a now
            let r2 := processBatch render pipelines r.1 (pre ++ (tag_id, Except.error e) :: post) now
            (r2.1, r.2 ++ r2.2)) = _
      dsimp only
      rw [ih]
      rfl

/-! ## ScaleParser (src/crates/infrastructure/src/pipeline.rs lines 235-311)

The parser works on the character sequence of the input; the regex
`[-+]?[0-9]*\.?[0-9]+([eE][-+]?[0-9]+)?` is modelled by an explicit scanner
with the crate's leftmost-first, greedy-with-backtracking semantics. -/

/-- Modelled from the Rust standard library: `char::is_whitespace` is true
exactly on the Unicode White_Space set, reproduced here in full. -/
def rustCharIsWhitespace (c : Char) : Bool :=
  let n := c.toNat
  decide ((0x09 ≤ n ∧ n ≤ 0x0D) ∨ n = 0x20 ∨ n = 0x85 ∨ n = 0xA0 ∨ n = 0x1680 ∨
    (0x2000 ≤ n ∧ n ≤ 0x200A) ∨ n = 0x2028 ∨ n = 0x2029 ∨ n = 0x202F ∨
    n = 0x205F ∨ n = 0x3000)

/-- Model of `str::trim`: strip Unicode whitespace from both ends. -/
def rustTrim (l : List Char) : List Char :=
  ((l.dropWhile rustCharIsWhitespace).reverse.dropWhile rustCharIsWhitespace).reverse

/-- The regex character class [0-9] (ASCII digits). -/
def isDigitChar (c : Char) : Bool := decide (48 ≤ c.toNat ∧ c.toNat ≤ 57)

/-- The character test of `ScaleParser::find_number_start` (pipeline.rs lines
254-258): ASCII digit, '+', '-' or '.'. -/
def isNumStartChar (c : Char) : Bool :=
  isDigitChar c || c == '+' || c == '-' || c == '.'

/-- Model of `ScaleParser::find_number_start`: index of the first character
that can start a number (`char_indices().find(...)`). -/
def find_number_start : List Char → Option ℕ
  | [] => none
  | c :: rest =>
      if isNumStartChar c then some 0 else (find_number_start rest).map (· + 1)

/-- The regex body `[0-9]*\.?[0-9]+` matched greedily at the current
position, with the crate's backtracking preferences: a dot is kept only when
digits follow it; otherwise the match is the leading digit run (non-empty).
Returns (matched characters, remaining characters). -/
def scanBody (l : List Char) : Option (List Char × List Char) :=
  let d1 := l.takeWhile isDigitChar
  let r1 := l.dropWhile isDigitChar
  match r1 with
  | '.' :: r2 =>
      let d2 := r2.takeWhile isDigitChar
      let r3 := r2.dropWhile isDigitChar
      if d2 ≠ [] then some (d1 ++ '.' :: d2, r3)
      else if d1 ≠ [] then some (d1, r1)
      else none
  | _ => if d1 ≠ [] then some (d1, r1) else none

/-- The optional exponent `([eE][-+]?[0-9]+)?`: consumed only when at least
one digit follows, otherwise nothing is consumed. -/
def scanExp (l : List Char) : List Char × List Char :=
  match l with
  | c :: rest =>
      if c = 'e' ∨ c = 'E' then
        match rest with
        | s :: r2 =>
            if s = '+' ∨ s = '-' then
              let d := r2.takeWhile isDigitChar
              if d ≠ [] then (c :: s :: d, r2.dropWhile isDigitChar) else ([], l)
            else
              let d := rest.takeWhile isDigitChar
              if d ≠ [] then (c :: d, rest.dropWhile isDigitChar) else ([], l)
        | [] => ([], l)
      else ([], l)
  | [] => ([], l)

/-- A whole-pattern match attempt at the current position: optional sign,
then body, then optional exponent. -/
def scanNumber (l : List Char) : Option (List Char × List Char) :=
  match l with
  | c :: rest =>
      if c = '+' ∨ c = '-' then
        (scanBody rest).map (fun p =>
          let e := scanExp p.2
          (c :: p.1 ++ e.1, e.2))
      else
        (scanBody l).map (fun p =>
          let e := scanExp p.2
          (p.1 ++ e.1, e.2))
  | [] => none

/-- Leftmost match of the number pattern: try each start position from the
left; return (matched token, characters after the match). -/
def regexFindNumber : List Char → Option (List Char × List Char)
  | [] => none
  | c :: rest =>
      match scanNumber (c :: rest) with
      | some p => some p
      | none => regexFindNumber rest

/-- Numeric value of a digit run. -/
def digitsToNat (ds : List Char) : ℕ :=
  ds.foldl (fun acc c => acc * 10 + (c.toNat - 48)) 0

/-- Sign handling of `str::parse::<f64>`: strip one leading '+' or '-'. -/
def splitSign (token : List Char) : ℚ × List Char :=
  match token with
  | c :: r => if c = '-' then (-1, r) else if c = '+' then (1, r) else (1, token)
  | [] => (1, token)

/-- Model of `num_str.parse::<f64>()` on a token produced by the number
pattern, computed exactly over the rationals: optional sign, integer digits,
optional fraction digits, optional exponent. -/
def numTokenToRat (token : List Char) : ℚ :=
  let sp : ℚ × List Char := splitSign token
  let ip := sp.2.takeWhile isDigitChar
  let r1 := sp.2.dropWhile isDigitChar
  let fpr : List Char × List Char :=
    match r1 with
    | '.' :: r => (r.takeWhile isDigitChar, r.dropWhile isDigitChar)
    | _ => ([], r1)
  let ev : ℤ :=
    match fpr.2 with
    | c :: r =>
        if c = 'e' ∨ c = 'E' then
          match r with
          | '-' :: d => -(digitsToNat (d.takeWhile isDigitChar) : ℤ)
          | '+' :: d => (digitsToNat (d.takeWhile isDigitChar) : ℤ)
          | d => (digitsToNat (d.takeWhile isDigitChar) : ℤ)
        else 0
    | [] => 0
  sp.1 * ((digitsToNat ip : ℚ) + (digitsToNat fpr.1 : ℚ) / 10 ^ fpr.1.length) * 10 ^ ev

/-- Model of `ScaleParser::parse` (pipeline.rs lines 262-310) on the
character sequence: trim and strip U+00A0, find the number start, trim and
normalize the remainder (',' to '.', remove spaces), take the leftmost regex
match, and require a non-empty unit after it. -/
def scaleParseCore (l : List Char) : Except String (ℚ × List Char) :=
  let s := (rustTrim l).filter (fun c => c != '\u00A0')
  if s.isEmpty then Except.error "Empty input"
  else
    match find_number_start s with
    | none => Except.error "No numeric value found"
    | some start =>
        let rest := ((rustTrim (s.drop start)).map
          (fun c => if c = ',' then '.' else c)).filter (fun c => c != ' ')
        match regexFindNumber rest with
        | none => Except.error "No numeric value found"
        | some (token, after) =>
            let unit_str := rustTrim after
            if unit_str.isEmpty then Except.error "No unit found"
            else Except.ok (numTokenToRat token, unit_str)

/-- Model of `ScaleParser::parse`: on success the composite JSON object
`{"value": value, "unit": unit}` is produced. -/
def ScaleParser.parse (raw_value : String) : Except String Json :=
  (scaleParseCore raw_value.data).map (fun p =>
    Json.obj [("value", Json.num p.1), ("unit", Json.str (String.mk p.2))])

/-- The exponent-consumption condition of the number pattern: the optional
group at the end of the regex consumes characters exactly when the remaining
text starts with e or E followed by an optional sign and at least one
digit. -/
def expStart : List Char → Bool
  | c :: s :: r2 =>
      decide (c = 'e' ∨ c = 'E') &&
      (if s = '+' ∨ s = '-' then
        (match r2 with
         | d :: _ => isDigitChar d
         | [] => false)
      else isDigitChar s)
  | _ => false

/-- takeWhile passes over a block that satisfies the predicate. -/
theorem takeWhile_append_all {p : Char → Bool} {l1 : List Char} (l2 : List Char)
    (h : ∀ c ∈ l1, p c = true) : (l1 ++ l2).takeWhile p = l1 ++ l2.takeWhile p := by
  induction l1 with
  | nil => simp
  | cons a l1 ih =>
      rw [List.cons_append, List.takeWhile_cons, if_pos (h a (by simp)), List.cons_append,
        ih (fun c hc => h c (by simp [hc]))]

/-- dropWhile passes over a block that satisfies the predicate. -/
theorem dropWhile_append_all {p : Char → Bool} {l1 : List Char} (l2 : List Char)
    (h : ∀ c ∈ l1, p c = true) : (l1 ++ l2).dropWhile p = l2.dropWhile p := by
  induction l1 with
  | nil => simp
  | cons a l1 ih =>
      rw [List.cons_append, List.dropWhile_cons, if_pos (h a (by simp))]
      exact ih (fun c hc => h c (by simp [hc]))

/-- takeWhile keeps a list all of whose elements satisfy the predicate. -/
theorem takeWhile_eq_self_of_all {p : Char → Bool} {l : List Char}
    (h : ∀ c ∈ l, p c = true) : l.takeWhile p = l := by
  induction l with
  | nil => rfl
  | cons a l ih =>
      rw [List.takeWhile_cons, if_pos (h a (by simp)), ih (fun c hc => h c (by simp [hc]))]

/-- dropWhile keeps a list none of whose elements satisfy the predicate. -/
theorem dropWhile_eq_self_of_none {p : Char → Bool} {l : List Char}
    (h : ∀ c ∈ l, p c = false) : l.dropWhile p = l := by
  cases l with
  | nil => rfl
  | cons a l => rw [List.dropWhile_cons, if_neg (by simp [h a (by simp)])]

/-- dropWhile exhausts a list all of whose elements satisfy the predicate. -/
theorem dropWhile_eq_nil_of_all {p : Char → Bool} {l : List Char}
    (h : ∀ c ∈ l, p c = true) : l.dropWhile p = [] := by
  induction l with
  | nil => rfl
  | cons a l ih =>
      rw [List.dropWhile_cons, if_pos (h a (by simp))]
      exact ih (fun c hc => h c (by simp [hc]))

/-- takeWhile is empty on a list none of whose elements satisfy the
predicate. -/
theorem takeWhile_eq_nil_of_none {p : Char → Bool} {l : List Char}
    (h : ∀ c ∈ l, p c = false) : l.takeWhile p = [] := by
  cases l with
  | nil => rfl
  | cons a l => rw [List.takeWhile_cons, if_neg (by simp [h a (by simp)])]

/-- `str::trim` is the identity on whitespace-free character sequences. -/
theorem rustTrim_eq_self {l : List Char}
    (h : ∀ c ∈ l, rustCharIsWhitespace c = false) : rustTrim l = l := by
  unfold rustTrim
  rw [dropWhile_eq_self_of_none h,
    dropWhile_eq_self_of_none (fun c hc => h c (List.mem_reverse.mp hc)),
    List.reverse_reverse]

/-- dropWhile is the identity when the head does not satisfy the
predicate. -/
theorem dropWhile_eq_self_of_head {p : Char → Bool} {l : List Char}
    (h : ∀ c ∈ l.take 1, p c = false) : l.dropWhile p = l := by
  cases l with
  | nil => rfl
  | cons a t => rw [List.dropWhile_cons, if_neg (by simp [h a (by simp)])]

/-- `str::trim` is the identity when neither end is whitespace. -/
theorem rustTrim_eq_self_of_ends {l : List Char}
    (h1 : ∀ c ∈ l.take 1, rustCharIsWhitespace c = false)
    (h2 : ∀ c ∈ l.reverse.take 1, rustCharIsWhitespace c = false) :
    rustTrim l = l := by
  unfold rustTrim
  rw [dropWhile_eq_self_of_head h1, dropWhile_eq_self_of_head h2, List.reverse_reverse]

/-- A non-whitespace character is neither the space nor the no-break-space
character. -/
theorem not_space_of_not_ws {c : Char} (h : rustCharIsWhitespace c = false) :
    ¬ c = ' ' ∧ ¬ c = '\u00A0' := by
  constructor <;> intro he <;> rw [he] at h <;> exact absurd h (by decide)

/-- The comma-to-dot normalization is the identity on comma-free sequences. -/
theorem map_commaDot_eq_self {l : List Char} (h : ∀ c ∈ l, ¬ c = ',') :
    l.map (fun c => if c = ',' then '.' else c) = l := by
  induction l with
  | nil => rfl
  | cons a l ih =>
      rw [List.map_cons, if_neg (h a (by simp)), ih (fun c hc => h c (by simp [hc]))]

/-- Facts about an ASCII digit character needed along the parse. -/
theorem digit_facts {c : Char} (h : isDigitChar c = true) :
    rustCharIsWhitespace c = false ∧ ¬ c = ',' ∧ isNumStartChar c = true ∧
    ¬ c = '-' ∧ ¬ c = '+' := by
  have hn : 48 ≤ c.toNat ∧ c.toNat ≤ 57 := by
    rw [isDigitChar, decide_eq_true_eq] at h
    exact h
  refine ⟨?_, ?_, ?_, ?_, ?_⟩
  · simp only [rustCharIsWhitespace, decide_eq_false_iff_not]
    omega
  · intro he; rw [he] at h; exact absurd h (by decide)
  · simp [isNumStartChar, h]
  · intro he; rw [he] at h; exact absurd h (by decide)
  · intro he; rw [he] at h; exact absurd h (by decide)

/-- The regex body at a digit run, dot, digit run, unit: when the unit does
not start with a digit, the body matches the full decimal numeral and leaves
the unit. -/
theorem scanBody_numeral {ds1 ds2 u : List Char}
    (h1d : ∀ c ∈ ds1, isDigitChar c = true)
    (h2 : ds2 ≠ []) (h2d : ∀ c ∈ ds2, isDigitChar c = true)
    (hu : ∀ c ∈ u.take 1, isDigitChar c = false) :
    scanBody (ds1 ++ '.' :: (ds2 ++ u)) = some (ds1 ++ '.' :: ds2, u) := by
  have hu_take : u.takeWhile isDigitChar = [] := by
    cases u with
    | nil => rfl
    | cons a t => rw [List.takeWhile_cons, if_neg (by simp [hu a (by simp)])]
  have hd1 : (ds1 ++ '.' :: (ds2 ++ u)).takeWhile isDigitChar = ds1 := by
    rw [takeWhile_append_all _ h1d, List.takeWhile_cons, if_neg (by decide)]
    simp
  have hr1 : (ds1 ++ '.' :: (ds2 ++ u)).dropWhile isDigitChar = '.' :: (ds2 ++ u) := by
    rw [dropWhile_append_all _ h1d, List.dropWhile_cons, if_neg (by decide)]
  have hd2 : (ds2 ++ u).takeWhile isDigitChar = ds2 := by
    rw [takeWhile_append_all _ h2d, hu_take, List.append_nil]
  have hr3 : (ds2 ++ u).dropWhile isDigitChar = u := by
    rw [dropWhile_append_all _ h2d, dropWhile_eq_self_of_head hu]
  unfold scanBody
  simp only [hd1, hr1, hd2, hr3]
  rw [if_pos h2]

/-- The optional exponent consumes nothing when the remaining text does not
start with an exponent-shaped prefix. -/
theorem scanExp_noexp {u : List Char} (h : expStart u = false) : scanExp u = ([], u) := by
  match u with
  | [] => rfl
  | [c] =>
      by_cases hc : c = 'e' ∨ c = 'E'
      · simp only [scanExp, if_pos hc]
      · simp only [scanExp, if_neg hc]
  | c :: s :: r2 =>
      by_cases hc : c = 'e' ∨ c = 'E'
      · simp only [expStart, decide_eq_true hc, Bool.true_and] at h
        by_cases hs : s = '+' ∨ s = '-'
        · rw [if_pos hs] at h
          simp only [scanExp, if_pos hc, if_pos hs]
          cases r2 with
          | nil => simp
          | cons d r2t =>
              dsimp only at h
              rw [List.takeWhile_cons, if_neg (by simp [h])]
        · rw [if_neg hs] at h
          simp only [scanExp, if_pos hc, if_neg hs]
          rw [List.takeWhile_cons, if_neg (by simp [h])]
      · simp only [scanExp, if_neg hc]

/-- The whole-pattern match on a (possibly signed) decimal numeral followed
by a unit that starts with neither a digit nor an exponent-shaped prefix. -/
theorem scanNumber_numeral (neg : Bool) {ds1 ds2 u : List Char}
    (h1 : ds1 ≠ []) (h1d : ∀ c ∈ ds1, isDigitChar c = true)
    (h2 : ds2 ≠ []) (h2d : ∀ c ∈ ds2, isDigitChar c = true)
    (hu : ∀ c ∈ u.take 1, isDigitChar c = false)
    (huexp : expStart u = false) :
    scanNumber ((if neg then ['-'] else []) ++ (ds1 ++ '.' :: (ds2 ++ u)))
      = some ((if neg then ['-'] else []) ++ (ds1 ++ '.' :: ds2), u) := by
  have hbody := scanBody_numeral h1d h2 h2d hu
  have hexp := scanExp_noexp huexp
  cases neg with
  | true =>
      show scanNumber ('-' :: (ds1 ++ '.' :: (ds2 ++ u))) = _
      simp only [scanNumber]
      rw [if_pos (by simp), hbody]
      simp [hexp]
  | false =>
      cases ds1 with
      | nil => exact absurd rfl h1
      | cons d ds1t =>
          have hd := digit_facts (h1d d (by simp))
          show scanNumber (d :: (ds1t ++ '.' :: (ds2 ++ u))) = _
          simp only [scanNumber]
          rw [if_neg (by simp [hd.2.2.2.1, hd.2.2.2.2])]
          rw [show d :: (ds1t ++ '.' :: (ds2 ++ u)) = (d :: ds1t) ++ '.' :: (ds2 ++ u) from rfl,
            hbody]
          simp [hexp]

set_option maxHeartbeats 1000000

/-- Exact value of a (possibly signed) decimal numeral token. -/
theorem numTokenToRat_eval (neg : Bool) {ds1 ds2 : List Char}
    (h1 : ds1 ≠ []) (h1d : ∀ c ∈ ds1, isDigitChar c = true)
    (h2d : ∀ c ∈ ds2, isDigitChar c = true) :
    numTokenToRat ((if neg then ['-'] else []) ++ (ds1 ++ '.' :: ds2))
      = (if neg then (-1 : ℚ) else 1)
        * ((digitsToNat ds1 : ℚ) + (digitsToNat ds2 : ℚ) / 10 ^ ds2.length) := by
  have hip : (ds1 ++ '.' :: ds2).takeWhile isDigitChar = ds1 := by
    rw [takeWhile_append_all _ h1d, List.takeWhile_cons, if_neg (by decide)]
    simp
  have hr1 : (ds1 ++ '.' :: ds2).dropWhile isDigitChar = '.' :: ds2 := by
    rw [dropWhile_append_all _ h1d, List.dropWhile_cons, if_neg (by decide)]
  have hfp : ds2.takeWhile isDigitChar = ds2 := takeWhile_eq_self_of_all h2d
  have hfr : ds2.dropWhile isDigitChar = [] := dropWhile_eq_nil_of_all h2d
  cases neg with
  | true =>
      show numTokenToRat ('-' :: (ds1 ++ '.' :: ds2)) = _
      have hsp : splitSign ('-' :: (ds1 ++ '.' :: ds2)) = (-1, ds1 ++ '.' :: ds2) := by
        simp [splitSign]
      simp only [numTokenToRat, hsp, hip, hr1, hfp, hfr]
      rw [zpow_zero, mul_one]
      norm_num
  | false =>
      cases ds1 with
      | nil => exact absurd rfl h1
      | cons d ds1t =>
          have hd := digit_facts (h1d d (by simp))
          show numTokenToRat (d :: (ds1t ++ '.' :: ds2)) = _
          have hsp : splitSign (d :: (ds1t ++ '.' :: ds2))
              = (1, d :: (ds1t ++ '.' :: ds2)) := by
            simp only [splitSign]
            rw [if_neg hd.2.2.2.1, if_neg hd.2.2.2.2]
          have hipc : List.takeWhile isDigitChar (d :: (ds1t ++ '.' :: ds2))
              = d :: ds1t := hip
          have hr1c : List.dropWhile isDigitChar (d :: (ds1t ++ '.' :: ds2))
              = '.' :: ds2 := hr1
          simp only [numTokenToRat, hsp, hipc, hr1c, hfp, hfr]
          rw [zpow_zero, mul_one]
          norm_num

/-- `ScaleParser::parse` on an input whose cleaning steps are the identity
(trim, no-break-space removal, comma normalization, space removal), whose
first character can start a number: the result is determined by the leftmost
regex match and the text after it, itself untouched by the final trim. -/
theorem scaleParseCore_clean {c0 : Char} {Lt token after : List Char} {v : ℚ}
    (htrim : rustTrim (c0 :: Lt) = c0 :: Lt)
    (hnbsp : ∀ c ∈ c0 :: Lt, ¬ c = ' ')
    (hncomma : ∀ c ∈ c0 :: Lt, ¬ c = ',')
    (hnspace : ∀ c ∈ c0 :: Lt, ¬ c = ' ')
    (hhead : isNumStartChar c0 = true)
    (hscan : scanNumber (c0 :: Lt) = some (token, after))
    (hafter_ne : after ≠ [])
    (htrim_after : rustTrim after = after)
    (hval : numTokenToRat token = v) :
    scaleParseCore (c0 :: Lt) = Except.ok (v, after) := by
  have hnbsp2 : ∀ c ∈ c0 :: Lt, (c != ' ') = true := by
    intro c hc
    rw [bne_iff_ne]
    exact hnbsp c hc
  have hnspace2 : ∀ c ∈ c0 :: Lt, (c != ' ') = true := by
    intro c hc
    rw [bne_iff_ne]
    exact hnspace c hc
  have hfind : find_number_start (c0 :: Lt) = some 0 := by
    rw [find_number_start, if_pos hhead]
  have hregex : regexFindNumber (c0 :: Lt) = some (token, after) := by
    rw [regexFindNumber, hscan]
  have hafter_empty : after.isEmpty = false := by
    cases after with
    | nil => exact absurd rfl hafter_ne
    | cons a l => rfl
  unfold scaleParseCore
  dsimp only
  rw [htrim, List.filter_eq_self.mpr hnbsp2]
  rw [if_neg (by simp), hfind]
  dsimp only
  rw [List.drop_zero, htrim, map_commaDot_eq_self hncomma,
    List.filter_eq_self.mpr hnspace2, hregex]
  dsimp only
  rw [htrim_after, hafter_empty, hval]
  simp

/-- Round trip of a (possibly signed) two-block decimal numeral with a
non-interfering unit through the full parse: the unit is non-empty, starts
with neither an ASCII digit nor whitespace, does not end in whitespace,
contains no space, comma or no-break space, and does not start with an
exponent-shaped prefix. -/
theorem scaleParseCore_roundtrip (neg : Bool) (ds1 ds2 u : List Char)
    (h1 : ds1 ≠ []) (h1d : ∀ c ∈ ds1, isDigitChar c = true)
    (h2 : ds2 ≠ []) (h2d : ∀ c ∈ ds2, isDigitChar c = true)
    (h3 : u ≠ [])
    (hu_head : ∀ c ∈ u.take 1, isDigitChar c = false ∧ rustCharIsWhitespace c = false)
    (hu_last : ∀ c ∈ u.reverse.take 1, rustCharIsWhitespace c = false)
    (hu_all : ∀ c ∈ u, ¬ c = ' ' ∧ ¬ c = ',' ∧ ¬ c = ' ')
    (huexp : expStart u = false) :
    scaleParseCore ((if neg then ['-'] else []) ++ (ds1 ++ '.' :: (ds2 ++ u)))
      = Except.ok ((if neg then (-1 : ℚ) else 1)
          * ((digitsToNat ds1 : ℚ) + (digitsToNat ds2 : ℚ) / 10 ^ ds2.length), u) := by
  have hscan := scanNumber_numeral neg h1 h1d h2 h2d (fun c hc => (hu_head c hc).1) huexp
  have hval := numTokenToRat_eval neg h1 h1d h2d
  have htrim_u : rustTrim u = u :=
    rustTrim_eq_self_of_ends (fun c hc => (hu_head c hc).2) hu_last
  have hu_space : ∀ c ∈ u, ¬ c = ' ' := fun c hc => (hu_all c hc).1
  have hu_comma : ∀ c ∈ u, ¬ c = ',' := fun c hc => (hu_all c hc).2.1
  have hu_nbsp : ∀ c ∈ u, ¬ c = ' ' := fun c hc => (hu_all c hc).2.2
  have hrev : ∀ P : List Char, (P ++ u).reverse.take 1 = u.reverse.take 1 := by
    intro P
    rw [List.reverse_append]
    cases hu2 : u.reverse with
    | nil => exact absurd (by simpa using congrArg List.reverse hu2) h3
    | cons a t => simp
  cases neg with
  | true =>
      refine scaleParseCore_clean ?_ ?_ ?_ ?_ (by decide) hscan h3 htrim_u hval
      · refine rustTrim_eq_self_of_ends (fun c hc => ?_) ?_
        · have hcv : c = '-' := by simpa using hc
          rw [hcv]
          decide
        · show ∀ c ∈ ('-' :: (ds1 ++ '.' :: (ds2 ++ u))).reverse.take 1,
            rustCharIsWhitespace c = false
          have hre : ('-' :: (ds1 ++ '.' :: (ds2 ++ u))).reverse.take 1
              = u.reverse.take 1 := by
            have hsplit : '-' :: (ds1 ++ '.' :: (ds2 ++ u))
                = ('-' :: ds1 ++ '.' :: ds2) ++ u := by simp
            rw [hsplit]
            exact hrev _
          rw [hre]
          exact hu_last
      · simp only [List.append_eq, List.cons_append, List.nil_append,
          List.forall_mem_cons, List.forall_mem_append]
        exact ⟨by decide, fun c hc => (not_space_of_not_ws (digit_facts (h1d c hc)).1).2,
          by decide, fun c hc => (not_space_of_not_ws (digit_facts (h2d c hc)).1).2,
          fun c hc => hu_nbsp c hc⟩
      · simp only [List.append_eq, List.cons_append, List.nil_append,
          List.forall_mem_cons, List.forall_mem_append]
        exact ⟨by decide, fun c hc => (digit_facts (h1d c hc)).2.1, by decide,
          fun c hc => (digit_facts (h2d c hc)).2.1, fun c hc => hu_comma c hc⟩
      · simp only [List.append_eq, List.cons_append, List.nil_append,
          List.forall_mem_cons, List.forall_mem_append]
        exact ⟨by decide, fun c hc => (not_space_of_not_ws (digit_facts (h1d c hc)).1).1,
          by decide, fun c hc => (not_space_of_not_ws (digit_facts (h2d c hc)).1).1,
          fun c hc => hu_space c hc⟩
  | false =>
      cases ds1 with
      | nil => exact absurd rfl h1
      | cons d ds1t =>
          have hd := digit_facts (h1d d (by simp))
          refine scaleParseCore_clean ?_ ?_ ?_ ?_ hd.2.2.1 hscan h3 htrim_u hval
          · refine rustTrim_eq_self_of_ends (fun c hc => ?_) ?_
            · have hcv : c = d := by simpa using hc
              rw [hcv]
              exact hd.1
            · show ∀ c ∈ (d :: (ds1t ++ '.' :: (ds2 ++ u))).reverse.take 1,
                rustCharIsWhitespace c = false
              have hre : (d :: (ds1t ++ '.' :: (ds2 ++ u))).reverse.take 1
                  = u.reverse.take 1 := by
                have hsplit : d :: (ds1t ++ '.' :: (ds2 ++ u))
                    = (d :: ds1t ++ '.' :: ds2) ++ u := by simp
                rw [hsplit]
                exact hrev _
              rw [hre]
              exact hu_last
          · simp only [List.append_eq, List.cons_append, List.nil_append,
              List.forall_mem_cons, List.forall_mem_append]
            exact ⟨(not_space_of_not_ws hd.1).2,
              fun c hc => (not_space_of_not_ws (digit_facts (h1d c (by simp [hc]))).1).2,
              by decide, fun c hc => (not_space_of_not_ws (digit_facts (h2d c hc)).1).2,
              fun c hc => hu_nbsp c hc⟩
          · simp only [List.append_eq, List.cons_append, List.nil_append,
              List.forall_mem_cons, List.forall_mem_append]
            exact ⟨hd.2.1, fun c hc => (digit_facts (h1d c (by simp [hc]))).2.1, by decide,
              fun c hc => (digit_facts (h2d c hc)).2.1, fun c hc => hu_comma c hc⟩
          · simp only [List.append_eq, List.cons_append, List.nil_append,
              List.forall_mem_cons, List.forall_mem_append]
            exact ⟨(not_space_of_not_ws hd.1).1,
              fun c hc => (not_space_of_not_ws (digit_facts (h1d c (by simp [hc]))).1).1,
              by decide, fun c hc => (not_space_of_not_ws (digit_facts (h2d c hc)).1).1,
              fun c hc => hu_space c hc⟩

/-- Claim C9, counterexample: for the finite value 5 formatted as "5.00" and
the non-empty unit "e5", the parse of "5.00e5" does not yield
{"value": 5, "unit": "e5"}: the regex greedily consumes "e5" as an exponent,
the remaining unit is empty, and the parser returns the "No unit found"
error. -/
theorem C9_counterexample :
    ScaleParser.parse ("5.00" ++ "e5") = Except.error "No unit found" ∧
    ¬ ("e5" : String) = "" := by
  exact ⟨rfl, by decide⟩

/-- Claim C9, amended: parsing the concatenation of a value formatted with
two decimal places (optional minus sign, integer digits, a dot, exactly two
fraction digits, modelled exactly over the rationals) and a non-empty unit
yields the composite object {"value": v, "unit": unit} whenever the unit
does not interfere with the parser's cleaning and matching steps: its first
character is not an ASCII digit (a leading digit run would extend the
fraction) and not whitespace, its last character is not whitespace (the
input's ends are trimmed), it contains no space, comma or no-break space
anywhere (spaces and no-break spaces are removed and commas become dots),
and it does not begin with an exponent-shaped prefix — e or E, an optional
sign, then a digit — which the number pattern absorbs, as in the
counterexample. Units such as "kg", "m2", "ekg", "+x" or ".x" all satisfy
these conditions. -/
theorem C9_amended (neg : Bool) (ds1 ds2 u : List Char)
    (h1 : ds1 ≠ []) (h1d : ∀ c ∈ ds1, isDigitChar c = true)
    (h2len : ds2.length = 2) (h2d : ∀ c ∈ ds2, isDigitChar c = true)
    (h3 : u ≠ [])
    (hu_head : ∀ c ∈ u.take 1, isDigitChar c = false ∧ rustCharIsWhitespace c = false)
    (hu_last : ∀ c ∈ u.reverse.take 1, rustCharIsWhitespace c = false)
    (hu_all : ∀ c ∈ u, ¬ c = ' ' ∧ ¬ c = ',' ∧ ¬ c = ' ')
    (huexp : expStart u = false) :
    ScaleParser.parse (String.mk ((if neg then ['-'] else []) ++ (ds1 ++ '.' :: (ds2 ++ u))))
      = Except.ok (Json.obj [("value", Json.num ((if neg then (-1 : ℚ) else 1)
          * ((digitsToNat ds1 : ℚ) + (digitsToNat ds2 : ℚ) / 100))),
        ("unit", Json.str (String.mk u))]) := by
  have h2 : ds2 ≠ [] := by
    intro h
    rw [h] at h2len
    simp at h2len
  have hcore := scaleParseCore_roundtrip neg ds1 ds2 u h1 h1d h2 h2d h3
    hu_head hu_last hu_all huexp
  have hv : (10 : ℚ) ^ (2 : ℕ) = 100 := by norm_num
  unfold ScaleParser.parse
  rw [show (String.mk ((if neg then ['-'] else []) ++ (ds1 ++ '.' :: (ds2 ++ u)))).data
      = (if neg then ['-'] else []) ++ (ds1 ++ '.' :: (ds2 ++ u)) from rfl]
  rw [hcore, h2len, hv]
  rfl

/-- Witness for C9_amended at the concrete input "5.00kg". -/
theorem C9_amended_witness :
    (['5'] : List Char) ≠ [] ∧ (['0', '0'] : List Char).length = 2 ∧
    (['k', 'g'] : List Char) ≠ [] ∧ expStart ['k', 'g'] = false ∧
    ScaleParser.parse
        (String.mk ((if false then ['-'] else []) ++ (['5'] ++ '.' :: (['0', '0'] ++ ['k', 'g']))))
      = Except.ok (Json.obj [("value", Json.num ((if false then (-1 : ℚ) else 1)
          * ((digitsToNat ['5'] : ℚ) + (digitsToNat ['0', '0'] : ℚ) / 100))),
        ("unit", Json.str (String.mk ['k', 'g']))]) :=
  ⟨by decide, by decide, by decide, by decide,
   C9_amended false ['5'] ['0', '0'] ['k', 'g'] (by decide) (by decide) (by decide)
     (by decide) (by decide) (by decide) (by decide) (by decide) (by decide)⟩

end Scada
